import Mathlib

/-!
Formal model of the command-execution core of a CLI-backed MCP server
(`src/cli/base.py` and `src/core/utils.py`): subprocess invocation with
timeout, retry with delay, error classification over heterogeneous CLI
output, JSON output normalization, and command-vector redaction for
logging.  Python strings are modelled as Lean `String`s (sequences of
unicode scalar values), Python ints as `Int`/`Nat`, raised exceptions as
`Except`, and the effectful subprocess/retry layers as explicit oracles
and traces.
-/

/-! ## Python string primitives -/

/-- Characters stripped by Python's `str.strip()` with no argument
(ASCII whitespace; the unicode space categories are outside the model). -/
def isPySpace (c : Char) : Bool :=
  c = ' ' || c = '\t' || c = '\n' || c = '\r' || c.toNat = 11 || c.toNat = 12

/-- Model of Python `str.strip()`: drop leading and trailing whitespace. -/
def pyStrip (s : String) : String :=
  ⟨((s.toList.dropWhile isPySpace).reverse.dropWhile isPySpace).reverse⟩

/-- Model of Python `str.lower()` (ASCII case folding; the claims only use
ASCII needles such as "token" and "not found"). -/
def pyLower (s : String) : String :=
  ⟨s.toList.map Char.toLower⟩

/-- Does the list `hay` start with `needle`? -/
def startsSeq (needle hay : List Char) : Bool :=
  match needle, hay with
  | [], _ => true
  | n :: ns, h :: hs => n = h && startsSeq ns hs
  | _ :: _, [] => false

/-- Does `needle` occur as a contiguous run inside `hay`?  Models Python's
substring test `needle in hay` on the character level. -/
def seqContains (needle : List Char) : List Char → Bool
  | [] => needle.isEmpty
  | c :: rest => startsSeq needle (c :: rest) || seqContains needle rest

/-- Model of Python `sub in s` (substring containment). -/
def strContains (s sub : String) : Bool :=
  seqContains sub.toList s.toList

/-! ## CLIError (`src/core/utils.py`) -/

/-- Model of the `CLIError` exception: message, full command vector,
exit code and captured stderr. -/
structure CLIError where
  message : String
  command : List String
  exitCode : Int
  stderr : String
deriving DecidableEq, Repr

/-! ## Command sanitizer (`sanitize_command_for_logging`) -/

/-- The literal replacement the sanitizer writes over secret values. -/
def maskedLiteral : String := "***MASKED***"

/-- Rule 1 trigger: the argument contains "token" or "password"
case-insensitively (then the NEXT argument is masked). -/
def tokenLike (part : String) : Bool :=
  strContains (pyLower part) "token" || strContains (pyLower part) "password"

/-- Rule 2 trigger: the argument contains "dapi" or "pat-"
case-insensitively (then the argument itself is masked). -/
def dapiLike (part : String) : Bool :=
  strContains (pyLower part) "dapi" || strContains (pyLower part) "pat-"

/-- Rule 3 trigger: the argument contains "bearer" case-insensitively
(then the argument itself is masked). -/
def bearerLike (part : String) : Bool :=
  strContains (pyLower part) "bearer"

/-- Model of the in-place index loop of `sanitize_command_for_logging`.
The Python code iterates over the copied list while mutating it; the only
write observed by a later iteration is rule 1's write to index `i + 1`,
which is captured here by the `maskNext` flag: when set, the element is
replaced by the mask before the rules are applied to it (exactly what the
loop reads at that index). -/
def sanitizeAux (maskNext : Bool) : List String → List String
  | [] => []
  | part :: rest =>
    let p := if maskNext then maskedLiteral else part
    if tokenLike p then p :: sanitizeAux true rest
    else if dapiLike p then maskedLiteral :: sanitizeAux false rest
    else if bearerLike p then maskedLiteral :: sanitizeAux false rest
    else p :: sanitizeAux false rest

/-- Model of `sanitize_command_for_logging`: apply the redaction rules to
a copy of the vector and join with single spaces. -/
def sanitize_command_for_logging (command : List String) : String :=
  String.intercalate " " (sanitizeAux false command)

/-! ## validate_required_args (`src/cli/base.py`) -/

/-- Model of `field not in args or args[field] is None`.  The arguments
mapping is an association list; a stored `none` models Python `None`. -/
def argMissing {α : Type} (args : List (String × Option α)) (f : String) : Bool :=
  match args.lookup f with
  | some (some _) => false
  | _ => true

/-- The list of missing/null required fields, in `required` order, as
collected by the loop in `validate_required_args`. -/
def missingFields {α : Type} (args : List (String × Option α))
    (required : List String) : List String :=
  required.filter (fun f => argMissing args f)

/-- Model of `validate_required_args`: raise a `CLIError` naming every
missing field, or return normally. -/
def validate_required_args {α : Type} (args : List (String × Option α))
    (required : List String) : Except CLIError Unit :=
  let m := missingFields args required
  if m = [] then .ok ()
  else .error ⟨"Missing required arguments: " ++ String.intercalate ", " m, [], -1, ""⟩

/-! ## Retry wrapper (`execute_with_retry`) -/

/-- Final outcome of one `execute_with_retry` call: a returned value, a
re-raised `CLIError`, or Python's implicit `None` return (reachable when
the attempt loop body never runs). -/
inductive RetryResult (α : Type) where
  | success (v : α)
  | raised (e : CLIError)
  | returnedNone
deriving DecidableEq, Repr

/-- Observable trace of one `execute_with_retry` call: how many times
`execute` was invoked, the sleep durations performed between attempts (in
order), and the final outcome. -/
structure RetryTrace (α δ : Type) where
  calls : Nat
  sleeps : List δ
  outcome : RetryResult α
deriving DecidableEq, Repr

/-- Model of the non-retry classification
`e.exit_code in [1, 2] and "not found" in e.message.lower()`. -/
def notFoundPermanent (e : CLIError) : Bool :=
  (e.exitCode == 1 || e.exitCode == 2) && strContains (pyLower e.message) "not found"

/-- Model of the attempt loop of `execute_with_retry`.  `att k` is the
outcome of the `k`-th invocation of `execute` (0-based); `remaining` is
the number of loop iterations left after the current one
(`max_retries - attempt`).  A retryable failure with iterations left
sleeps `retryDelay` and continues; the loop end re-raises the last
failure. -/
def retryAux {α δ : Type} (att : Nat → Except CLIError α) (retryDelay : δ) :
    Nat → Nat → RetryTrace α δ
  | attempt, remaining =>
    match att attempt with
    | .ok v => ⟨1, [], .success v⟩
    | .error e =>
      if notFoundPermanent e then ⟨1, [], .raised e⟩
      else
        match remaining with
        | 0 => ⟨1, [], .raised e⟩
        | r + 1 =>
          let t := retryAux att retryDelay (attempt + 1) r
          ⟨t.calls + 1, retryDelay :: t.sleeps, t.outcome⟩

/-- Model of `execute_with_retry`.  `range(max_retries + 1)` is empty for
negative `max_retries`, in which case no attempt runs, `last_exception`
stays `None`, and the function falls through to an implicit `None`
return. -/
def execute_with_retry {α δ : Type} (att : Nat → Except CLIError α)
    (maxRetries : Int) (retryDelay : δ) : RetryTrace α δ :=
  if maxRetries < 0 then ⟨0, [], .returnedNone⟩
  else retryAux att retryDelay 0 maxRetries.toNat

/-! ## JSON values

Model of the values produced by Python's `json.loads` on CLI output.
JSON numbers are restricted to integers: the repository's CLI payloads
and every claim use integral numbers, and floating point is outside the
model. -/

/-- A parsed JSON value.  `obj` keeps the key insertion order of the
Python dict. -/
inductive Json where
  | null
  | bool (b : Bool)
  | num (n : Int)
  | str (s : String)
  | arr (xs : List Json)
  | obj (fields : List (String × Json))
deriving Repr

/-- Python truthiness of a loaded JSON value (`bool(v)`). -/
def jsonTruthy : Json → Bool
  | .null => false
  | .bool b => b
  | .num n => n != 0
  | .str s => s ≠ ""
  | .arr xs => !xs.isEmpty
  | .obj fields => !fields.isEmpty

/-- Python type name of a loaded JSON value, as it appears in TypeError
messages. -/
def pyTypeName : Json → String
  | .null => "NoneType"
  | .bool _ => "bool"
  | .num _ => "int"
  | .str _ => "str"
  | .arr _ => "list"
  | .obj _ => "dict"

mutual
/-- Python `repr()` of a loaded JSON value.  String quoting is modelled
for strings without embedded quotes/backslashes/control characters —
the only forms the claims evaluate. -/
def pyRepr : Json → String
  | .null => "None"
  | .bool true => "True"
  | .bool false => "False"
  | .num n => toString n
  | .str s => "'" ++ s ++ "'"
  | .arr [] => "[]"
  | .arr (x :: xs) => "[" ++ pyRepr x ++ pyReprList xs ++ "]"
  | .obj [] => "\x7b\x7d"
  | .obj ((k, v) :: ms) => "\x7b'" ++ k ++ "': " ++ pyRepr v ++ pyReprMembers ms ++ "\x7d"

/-- Continuation of `pyRepr` over the tail of a list value. -/
def pyReprList : List Json → String
  | [] => ""
  | x :: xs => ", " ++ pyRepr x ++ pyReprList xs

/-- Continuation of `pyRepr` over the tail of a dict value. -/
def pyReprMembers : List (String × Json) → String
  | [] => ""
  | (k, v) :: ms => ", '" ++ k ++ "': " ++ pyRepr v ++ pyReprMembers ms
end

/-- Python `str()` of a loaded JSON value, as used by f-string
interpolation: the string itself for `str`, `repr` otherwise. -/
def pyStr : Json → String
  | .str s => s
  | .null => pyRepr .null
  | .bool b => pyRepr (.bool b)
  | .num n => pyRepr (.num n)
  | .arr xs => pyRepr (.arr xs)
  | .obj ms => pyRepr (.obj ms)

/-! ## Serialization (model of `json.dumps` with default options) -/

/-- Lower-case hex digit (only applied below 16). -/
def hexDigitChar (n : Nat) : Char :=
  match n with
  | 0 => '0' | 1 => '1' | 2 => '2' | 3 => '3' | 4 => '4'
  | 5 => '5' | 6 => '6' | 7 => '7' | 8 => '8' | 9 => '9'
  | 10 => 'a' | 11 => 'b' | 12 => 'c' | 13 => 'd' | 14 => 'e'
  | _ => 'f'

/-- A `\uXXXX` escape for a code unit below 0x10000. -/
def uEscape (n : Nat) : List Char :=
  ['\\', 'u', hexDigitChar (n / 4096 % 16), hexDigitChar (n / 256 % 16),
    hexDigitChar (n / 16 % 16), hexDigitChar (n % 16)]

/-- How `json.dumps` (with its default `ensure_ascii=True`) renders one
character inside a string literal: printable ASCII except quote and
backslash is kept, the common controls get short escapes, and everything
else becomes `\uXXXX` (a surrogate pair above 0xFFFF). -/
def escapeChar (c : Char) : List Char :=
  if c = '"' then ['\\', '"']
  else if c = '\\' then ['\\', '\\']
  else if c.toNat = 8 then ['\\', 'b']
  else if c.toNat = 9 then ['\\', 't']
  else if c.toNat = 10 then ['\\', 'n']
  else if c.toNat = 12 then ['\\', 'f']
  else if c.toNat = 13 then ['\\', 'r']
  else if 32 ≤ c.toNat && c.toNat ≤ 126 then [c]
  else if c.toNat < 65536 then uEscape c.toNat
  else uEscape (55296 + (c.toNat - 65536) / 1024) ++
    uEscape (56320 + (c.toNat - 65536) % 1024)

/-- Serialized JSON string literal, quotes included. -/
def dumpStringChars (s : String) : List Char :=
  '"' :: s.toList.flatMap escapeChar ++ ['"']

/-- Decimal digits of a natural number (fuelled so that it reduces in the
kernel; `n + 1` fuel always suffices). -/
def natDigsAux : Nat → Nat → List Char
  | 0, _ => []
  | fuel + 1, n =>
    if n < 10 then [hexDigitChar n]
    else natDigsAux fuel (n / 10) ++ [hexDigitChar (n % 10)]

/-- Decimal digits of a natural number, no leading zeros. -/
def natDigs (n : Nat) : List Char :=
  natDigsAux (n + 1) n

/-- Python `str(int)`: optional minus sign and decimal digits. -/
def intChars (i : Int) : List Char :=
  if i < 0 then '-' :: natDigs i.natAbs else natDigs i.toNat

mutual
/-- Model of `json.dumps` with default separators (", " and ": "),
producing the character stream. -/
def dumpsChars : Json → List Char
  | .num n => intChars n
  | .str s => dumpStringChars s
  | .null => "null".toList
  | .bool true => "true".toList
  | .bool false => "false".toList
  | .arr [] => ['[', ']']
  | .arr (x :: xs) => '[' :: dumpsChars x ++ dumpsList xs ++ [']']
  | .obj [] => ['{', '}']
  | .obj ((k, v) :: ms) =>
    '{' :: (dumpStringChars k ++ ':' :: ' ' :: dumpsChars v) ++ dumpsMembers ms ++ ['}']

/-- Tail of a serialized array: ", elem" for each remaining element. -/
def dumpsList : List Json → List Char
  | [] => []
  | x :: xs => ',' :: ' ' :: dumpsChars x ++ dumpsList xs

/-- Tail of a serialized object: ", "key": value" for each remaining
member. -/
def dumpsMembers : List (String × Json) → List Char
  | [] => []
  | (k, v) :: ms =>
    ',' :: ' ' :: (dumpStringChars k ++ ':' :: ' ' :: dumpsChars v) ++ dumpsMembers ms
end

/-- Model of `json.dumps` as a string. -/
def dumps (x : Json) : String :=
  ⟨dumpsChars x⟩

/-! ## Parsing (model of `json.loads`) -/

/-- JSON inter-token whitespace (the scanner's ` \t\n\r`). -/
def isJsWs (c : Char) : Bool :=
  c = ' ' || c = '\t' || c = '\n' || c = '\r'

/-- Skip JSON whitespace. -/
def skipWs (cs : List Char) : List Char :=
  cs.dropWhile isJsWs

/-- Value of one hex digit, if any (both cases accepted, as in the
scanner). -/
def hexDigitVal (c : Char) : Option Nat :=
  if 48 ≤ c.toNat && c.toNat ≤ 57 then some (c.toNat - 48)
  else if 97 ≤ c.toNat && c.toNat ≤ 102 then some (c.toNat - 97 + 10)
  else if 65 ≤ c.toNat && c.toNat ≤ 70 then some (c.toNat - 65 + 10)
  else none

/-- Value of a four-hex-digit escape body. -/
def hex4val (a b c d : Char) : Option Nat :=
  match hexDigitVal a, hexDigitVal b, hexDigitVal c, hexDigitVal d with
  | some x, some y, some z, some w => some (x * 4096 + y * 256 + z * 16 + w)
  | _, _, _, _ => none

/-- The single-character escapes accepted after a backslash. -/
def simpleEscape (c : Char) : Option Char :=
  if c = '"' then some '"'
  else if c = '\\' then some '\\'
  else if c = '/' then some '/'
  else if c = 'b' then some (Char.ofNat 8)
  else if c = 'f' then some (Char.ofNat 12)
  else if c = 'n' then some '\n'
  else if c = 'r' then some '\r'
  else if c = 't' then some '\t'
  else none

mutual
/-- Scan a JSON string body (after the opening quote) up to the closing
quote, unescaping as the decoder does.  Unescaped control characters are
rejected (strict mode).  A lone surrogate escape is rejected: CPython
would materialize a surrogate code point, which a Lean `Char` cannot
carry — such strings never arise from well-formed text. -/
def parseStrAux (acc : List Char) : List Char → Option (String × List Char)
  | [] => none
  | c :: rest =>
    if c = '"' then some (⟨acc.reverse⟩, rest)
    else if c = '\\' then parseEsc acc rest
    else if c.toNat < 32 then none
    else parseStrAux (c :: acc) rest
termination_by structural cs => cs

/-- The character after a backslash. -/
def parseEsc (acc : List Char) : List Char → Option (String × List Char)
  | [] => none
  | e :: rest1 =>
    if e = 'u' then parseU acc rest1
    else
      match simpleEscape e with
      | some ch => parseStrAux (ch :: acc) rest1
      | none => none
termination_by structural cs => cs

/-- The four hex digits of a `\uXXXX` escape, and the surrogate
dispatch. -/
def parseU (acc : List Char) : List Char → Option (String × List Char)
  | a :: b :: c1 :: d :: rest2 =>
    match hex4val a b c1 d with
    | none => none
    | some n =>
      if 55296 ≤ n && n ≤ 56319 then parseLow acc n rest2
      else if 56320 ≤ n && n ≤ 57343 then none
      else parseStrAux (Char.ofNat n :: acc) rest2
  | _ => none
termination_by structural cs => cs

/-- The mandatory low-surrogate escape after a high surrogate. -/
def parseLow (acc : List Char) (n : Nat) : List Char → Option (String × List Char)
  | s1 :: s2 :: a2 :: b2 :: c2 :: d2 :: rest3 =>
    if s1 = '\\' && s2 = 'u' then
      match hex4val a2 b2 c2 d2 with
      | some m =>
        if 56320 ≤ m && m ≤ 57343 then
          parseStrAux
            (Char.ofNat (65536 + (n - 55296) * 1024 + (m - 56320)) :: acc) rest3
        else none
      | none => none
    else none
  | _ => none
termination_by structural cs => cs
end

/-- Numeric digit test used by the number grammar. -/
def isDig (c : Char) : Bool :=
  48 ≤ c.toNat && c.toNat ≤ 57

/-- Value of a list of decimal digits. -/
def natOfDigits (ds : List Char) : Nat :=
  ds.foldl (fun a c => a * 10 + (c.toNat - 48)) 0

/-- Does the stream continue with a fraction or exponent?  Such numbers
are floats, which are outside the model (the parser rejects them where
CPython would produce a `float`). -/
def headFloaty (cs : List Char) : Bool :=
  match cs with
  | c :: _ => c = '.' || c = 'e' || c = 'E'
  | [] => false

/-- One dict insertion `d[k] = v`: overwrite in place if the key exists,
append otherwise. -/
def setKey (acc : List (String × Json)) (k : String) (v : Json) : List (String × Json) :=
  if acc.any (fun p => p.1 = k) then acc.map (fun p => if p.1 = k then (k, v) else p)
  else acc ++ [(k, v)]

/-- Python `dict(pairs)`: first-occurrence order, last value wins. -/
def collapsePairs (ms : List (String × Json)) : List (String × Json) :=
  ms.foldl (fun acc kv => setKey acc kv.1 kv.2) []

/-- Parse an unsigned JSON integer per `0 | [1-9][0-9]*`, rejecting a
following fraction/exponent. -/
def parseUNum : List Char → Option (Json × List Char)
  | [] => none
  | c :: rest =>
    if c = '0' then (if headFloaty rest then none else some (.num 0, rest))
    else if isDig c then
      let digs := (c :: rest).takeWhile isDig
      let rest2 := (c :: rest).dropWhile isDig
      if headFloaty rest2 then none
      else some (.num (natOfDigits digs : Nat), rest2)
    else none

/-- Parse a JSON integer per the number grammar
`-? (0 | [1-9][0-9]*)`. -/
def parseNum (cs : List Char) : Option (Json × List Char) :=
  match cs with
  | [] => none
  | c :: rest =>
    if c = '-' then
      match parseUNum rest with
      | some (.num n, rest2) => some (.num (-n), rest2)
      | _ => none
    else parseUNum cs

/-- Match an exact keyword tail (the scanner compares the literal
character by character). -/
def expectLit (lit : List Char) (cs : List Char) (v : Json) : Option (Json × List Char) :=
  if startsSeq lit cs then some (v, cs.drop lit.length) else none

mutual
/-- Recursive-descent model of the `json.loads` scanner, fuelled so the
definition is structural and kernel-reducible.  Expects its input to
start at a non-whitespace position.  `NaN`/`Infinity` and float literals
are outside the model. -/
def parseVal : Nat → List Char → Option (Json × List Char)
  | 0, _ => none
  | fuel + 1, cs =>
    match cs with
    | [] => none
    | c :: rest =>
      if c = '{' then
        match skipWs rest with
        | [] => none
        | c2 :: rest2 =>
          if c2 = '}' then some (.obj [], rest2)
          else
            match parseMembers fuel (c2 :: rest2) with
            | some (ms, rest3) => some (.obj (collapsePairs ms), rest3)
            | none => none
      else if c = '[' then
        match skipWs rest with
        | [] => none
        | c2 :: rest2 =>
          if c2 = ']' then some (.arr [], rest2)
          else
            match parseElems fuel (c2 :: rest2) with
            | some (xs, rest3) => some (.arr xs, rest3)
            | none => none
      else if c = '"' then
        match parseStrAux [] rest with
        | some (s, rest2) => some (.str s, rest2)
        | none => none
      else if c = 't' then expectLit ['r', 'u', 'e'] rest (.bool true)
      else if c = 'f' then expectLit ['a', 'l', 's', 'e'] rest (.bool false)
      else if c = 'n' then expectLit ['u', 'l', 'l'] rest .null
      else parseNum (c :: rest)

/-- Parse the members of a non-empty object, starting at the first key's
opening quote, consuming the closing brace. -/
def parseMembers : Nat → List Char → Option (List (String × Json) × List Char)
  | 0, _ => none
  | fuel + 1, cs =>
    match cs with
    | [] => none
    | c :: cs1 =>
      if c = '"' then
        match parseStrAux [] cs1 with
        | some (k, cs2) =>
          match skipWs cs2 with
          | [] => none
          | c2 :: cs3 =>
            if c2 = ':' then
              match parseVal fuel (skipWs cs3) with
              | some (v, cs4) =>
                match skipWs cs4 with
                | [] => none
                | c3 :: cs5 =>
                  if c3 = ',' then
                    match parseMembers fuel (skipWs cs5) with
                    | some (ms, cs6) => some ((k, v) :: ms, cs6)
                    | none => none
                  else if c3 = '}' then some ([(k, v)], cs5)
                  else none
              | none => none
            else none
        | none => none
      else none

/-- Parse the elements of a non-empty array, starting at the first
element, consuming the closing bracket. -/
def parseElems : Nat → List Char → Option (List Json × List Char)
  | 0, _ => none
  | fuel + 1, cs =>
    match parseVal fuel cs with
    | some (v, cs1) =>
      match skipWs cs1 with
      | [] => none
      | c :: cs2 =>
        if c = ',' then
          match parseElems fuel (skipWs cs2) with
          | some (xs, cs3) => some (v :: xs, cs3)
          | none => none
        else if c = ']' then some ([v], cs2)
        else none
    | none => none
end

/-- Model of `json.loads`: skip leading whitespace, parse one value,
accept only trailing whitespace.  `none` models a raised
`JSONDecodeError`. -/
def jsonLoads (s : String) : Option Json :=
  match parseVal (s.length + 1) (skipWs s.toList) with
  | some (v, rest) => if skipWs rest = [] then some v else none
  | none => none

/-! ## Output normalizer (`src/core/utils.py`) -/

/-- Python `s[:n]` on strings (by code point). -/
def takeStr (n : Nat) (s : String) : String :=
  ⟨s.toList.take n⟩

/-- Model of `truncate_output`: cap at `maxLength` characters, appending
a marker when something was cut. -/
def truncate_output (output : String) (maxLength : Nat := 5000) : String :=
  if output.length ≤ maxLength then output
  else takeStr maxLength output ++ "... [output truncated]"

/-- Unspecified detail: the human-readable text of the decode error
(`str(e)` of the `JSONDecodeError`).  No claim depends on its content,
only on the fixed prefix before it. -/
def parseFailText : String := "Expecting value"

/-- Model of `parse_json_output`: empty/whitespace-only text becomes the
canonical error container, valid JSON is returned as parsed, and a parse
failure becomes an error container carrying the first 1000 characters of
the raw output. -/
def parse_json_output (output : String) (fallbackMessage : String := "No data returned") : Json :=
  if pyStrip output = "" then .obj [("error", .str fallbackMessage)]
  else
    match jsonLoads output with
    | some v => v
    | none =>
      .obj [("error", .str ("Failed to parse JSON output: " ++ parseFailText)),
            ("raw_output", .str (takeStr 1000 output))]

/-- Python `data.get("error") or data.get("message") or
data.get("error_message") or data.get("detail")` followed by the
truthiness check: the first truthy value among those keys, if any. -/
def firstTruthyErr (fields : List (String × Json)) : Option Json :=
  match fields.lookup "error" with
  | some v =>
    if jsonTruthy v then some v else
      match fields.lookup "message" with
      | some v2 =>
        if jsonTruthy v2 then some v2 else
          match fields.lookup "error_message" with
          | some v3 =>
            if jsonTruthy v3 then some v3 else
              match fields.lookup "detail" with
              | some v4 => if jsonTruthy v4 then some v4 else none
              | none => none
          | none => none
      | none => none
  | none =>
    match fields.lookup "message" with
    | some v2 =>
      if jsonTruthy v2 then some v2 else
        match fields.lookup "error_message" with
        | some v3 =>
          if jsonTruthy v3 then some v3 else
            match fields.lookup "detail" with
            | some v4 => if jsonTruthy v4 then some v4 else none
            | none => none
        | none => none
    | none =>
      match fields.lookup "error_message" with
      | some v3 =>
        if jsonTruthy v3 then some v3 else
          match fields.lookup "detail" with
          | some v4 => if jsonTruthy v4 then some v4 else none
          | none => none
      | none =>
        match fields.lookup "detail" with
        | some v4 => if jsonTruthy v4 then some v4 else none
        | none => none

/-- The optional part that the stdout branch of
`extract_error_from_cli_output` contributes: when stdout is non-empty and
contains "error" case-insensitively, either the first truthy error value
of a parsed mapping (kept verbatim, whatever its type), or the
"Output: " fallback when parsing fails; a parsed non-mapping contributes
nothing. -/
def stdoutErrPart (stdout : String) : Option Json :=
  if stdout ≠ "" && strContains (pyLower stdout) "error" then
    match jsonLoads stdout with
    | some (.obj fields) => firstTruthyErr fields
    | some _ => none
    | none => some (.str ("Output: " ++ truncate_output stdout 500))
  else none

/-- Model of `" | ".join(error_parts)`: Python `str.join` raises a
TypeError naming the first non-string item. -/
def pyJoinAux (idx : Nat) : List Json → Except String (List String)
  | [] => .ok []
  | .str s :: rest =>
    match pyJoinAux (idx + 1) rest with
    | .ok ss => .ok (s :: ss)
    | .error e => .error e
  | v :: _ =>
    .error ("sequence item " ++ toString idx ++ ": expected str instance, " ++
      pyTypeName v ++ " found")

/-- Join a list of parts with a separator, Python-style (can raise). -/
def pyJoinStr (sep : String) (parts : List Json) : Except String String :=
  match pyJoinAux 0 parts with
  | .ok ss => .ok (String.intercalate sep ss)
  | .error e => .error e

/-- Model of `extract_error_from_cli_output`.  The stderr part and the
stdout part are computed independently (the Python code has no `else`
between them) and joined with " | "; when neither produced anything the
exit-code fallback is used.  The `Except.error` case models the TypeError
that `join` raises when a structured error value is not a string. -/
def extract_error_from_cli_output (stdout stderr : String) (exitCode : Int) :
    Except String String :=
  let parts : List Json :=
    (if stderr ≠ "" then [.str ("Error: " ++ pyStrip stderr)] else []) ++
    (match stdoutErrPart stdout with
     | some v => [v]
     | none => [])
  let parts2 : List Json :=
    if parts.isEmpty then [.str ("Command failed with exit code " ++ toString exitCode)]
    else parts
  pyJoinStr " | " parts2

mutual
/-- Well-formedness used for the serialization round trip: every object
has pairwise-distinct keys (always true of a value serialized from
Python dicts, whose keys are unique). -/
def wfJ : Json → Bool
  | .null => true
  | .bool _ => true
  | .num _ => true
  | .str _ => true
  | .arr xs => wfL xs
  | .obj ms => wfM ms

/-- Well-formedness of array elements. -/
def wfL : List Json → Bool
  | [] => true
  | x :: xs => wfJ x && wfL xs

/-- Well-formedness of object members: the head key is distinct from all
later keys, and the values are well-formed. -/
def wfM : List (String × Json) → Bool
  | [] => true
  | (k, v) :: ms => !(ms.any (fun p => p.1 == k)) && (wfJ v && wfM ms)
end

mutual
/-- Parser fuel measure: an upper bound on the recursion depth
`parseVal`/`parseElems`/`parseMembers` need for a serialized value. -/
def jsize : Json → Nat
  | .null => 1
  | .bool _ => 1
  | .num _ => 1
  | .str _ => 1
  | .arr xs => 1 + jsizeL xs
  | .obj ms => 1 + jsizeM ms

/-- Fuel measure for array elements. -/
def jsizeL : List Json → Nat
  | [] => 0
  | x :: xs => 1 + jsize x + jsizeL xs

/-- Fuel measure for object members. -/
def jsizeM : List (String × Json) → Nat
  | [] => 0
  | (_, v) :: ms => 1 + jsize v + jsizeM ms
end

/-- Continuation safety for a serialized number: the stream after it must
not extend the numeric token (no digit and no fraction/exponent head).
Every continuation the serializer produces (`,`, `]`, `\x7d`, end of
input) satisfies this. -/
def numSafe : List Char → Bool
  | [] => true
  | c :: _ => !(c = '.' || c = 'e' || c = 'E') && !isDig c

/-! ## Executor core (`execute`, `src/cli/base.py`) -/

/-- Environment outcome of the awaited subprocess: completion with exit
code and decoded output streams, or expiry of the `wait_for` bound.
Process-launch OS errors (which the generic handler also turns into a
code −2 failure) are left outside the modelled environment; no claim
concerns them. -/
inductive ProcResult where
  | timedOut
  | completed (exitCode : Int) (stdout : String) (stderr : String)

/-- Result of Python's `"error" in result` followed by
`result["error"]` on a loads value: no error, a dict key hit (with the
`raw_output` capture coerced for the `stderr` field), or a TypeError
raised by the membership test or the subscript. -/
inductive ErrorProbe where
  | noKey
  | keyed (v : Json) (raw : String)
  | tyErr (msg : String)

/-- Python `"error" == element` for list membership: true only for the
string "error". -/
def isStrError : Json → Bool
  | .str s => s = "error"
  | _ => false

/-- The `raw_output` capture: `result.get("raw_output", "")`, coerced to
the string stored in `CLIError.stderr` (the normalizer always captures a
string here). -/
def rawOutputCapture (fields : List (String × Json)) : String :=
  match fields.lookup "raw_output" with
  | some w => pyStr w
  | none => ""

/-- TypeError text for subscripting a list with a string. -/
def listIndexTypeErr : String := "list indices must be integers or slices, not str"

/-- TypeError text for subscripting a string with a string. -/
def strIndexTypeErr : String := "string indices must be integers"

/-- Evaluate `"error" in result` and, on a hit that is not a dict key,
the failing `result["error"]` subscript, as the `execute` success path
does.  For a dict: key membership.  For a list: element membership, then
a TypeError on the subscript.  For a string: substring membership
(case-sensitive), then a TypeError.  For int/bool/None the membership
test itself raises. -/
def errorProbe : Json → ErrorProbe
  | .obj fields =>
    match fields.lookup "error" with
    | some v => .keyed v (rawOutputCapture fields)
    | none => .noKey
  | .arr xs => if xs.any isStrError then .tyErr listIndexTypeErr else .noKey
  | .str s => if strContains s "error" then .tyErr strIndexTypeErr else .noKey
  | .num _ => .tyErr "argument of type 'int' is not iterable"
  | .bool _ => .tyErr "argument of type 'bool' is not iterable"
  | .null => .tyErr "argument of type 'NoneType' is not iterable"

/-- Model of `DatabricksCLI.execute`: build the full vector, run the
subprocess (its environment outcome supplied as `proc`), normalize.
Every Python exception path is an `Except.error` carrying the
corresponding `CLIError`: timeout (code −1), non-zero exit (real code,
message from the extractor — or code −2 when the extractor itself raises
a TypeError, caught by the generic handler), the code-0 soft failure for
an error-keyed parsed mapping, and code −2 for TypeErrors raised on the
success path by `"error" in result` / `result["error"]`. -/
def execute (base : List String) (timeoutSec : Nat) (args : List String)
    (expectJson : Bool) (proc : ProcResult) : Except CLIError Json :=
  let full := base ++ args
  match proc with
  | .timedOut =>
    .error ⟨"Command timed out after " ++ toString timeoutSec ++ " seconds", full, -1, ""⟩
  | .completed ec out errS =>
    if ec ≠ 0 then
      match extract_error_from_cli_output out errS ec with
      | .ok msg => .error ⟨msg, full, ec, errS⟩
      | .error ty => .error ⟨"Unexpected error: " ++ ty, full, -2, ty⟩
    else if expectJson then
      match errorProbe (parse_json_output out) with
      | .noKey => .ok (parse_json_output out)
      | .keyed v raw => .error ⟨"CLI returned error: " ++ pyStr v, full, 0, raw⟩
      | .tyErr m => .error ⟨"Unexpected error: " ++ m, full, -2, m⟩
    else .ok (.obj [("output", .str (pyStrip out)), ("success", .bool true)])

/-! ## Retry lemmas -/

/-- Every run of the attempt loop invokes `execute` at least once. -/
theorem retryAux_calls_pos {α δ : Type} (att : Nat → Except CLIError α) (d : δ) :
    ∀ remaining attempt, 1 ≤ (retryAux att d attempt remaining).calls := by
  intro remaining
  induction remaining with
  | zero =>
    intro attempt
    unfold retryAux
    cases att attempt with
    | ok v => simp
    | error e =>
      by_cases h : notFoundPermanent e = true <;> simp [h]
  | succ r ih =>
    intro attempt
    unfold retryAux
    cases att attempt with
    | ok v => simp
    | error e =>
      by_cases h : notFoundPermanent e = true <;> simp [h]

/-- If every attempt up to `attempt + r` fails with a retryable error,
the loop performs all of them, sleeps `r` times, and raises the error of
the last one. -/
theorem retryAux_all_fail {α δ : Type} (att : Nat → Except CLIError α) (d : δ)
    (errs : Nat → CLIError) :
    ∀ r attempt,
      (∀ k, k ≤ attempt + r → att k = .error (errs k)) →
      (∀ k, k ≤ attempt + r → notFoundPermanent (errs k) = false) →
      retryAux att d attempt r =
        ⟨r + 1, List.replicate r d, .raised (errs (attempt + r))⟩ := by
  intro r
  induction r with
  | zero =>
    intro attempt hfail hperm
    unfold retryAux
    rw [hfail attempt (by omega)]
    dsimp only
    rw [hperm attempt (by omega)]
    simp
  | succ r ih =>
    intro attempt hfail hperm
    unfold retryAux
    rw [hfail attempt (by omega)]
    dsimp only
    rw [hperm attempt (by omega)]
    have hrec := ih (attempt + 1)
      (fun k hk => hfail k (by omega)) (fun k hk => hperm k (by omega))
    simp only [Bool.false_eq_true, if_false, hrec]
    have : attempt + 1 + r = attempt + (r + 1) := by omega
    rw [this, List.replicate_succ]

/-- C1: for every args vector, input payload and mode (abstracted into
the attempt oracle `att`), if every attempt raises a retryable `CLIError`
(exit code not in {1, 2}, or message not containing "not found"
case-insensitively), then `execute_with_retry` with `max_retries = N ≥ 0`
invokes `execute` exactly `N + 1` times, sleeps `retry_delay` between
consecutive attempts but not after the last (`N` sleeps), and re-raises
the `CLIError` of the final attempt unchanged. -/
theorem C1_retry_exhaustion {α δ : Type} (att : Nat → Except CLIError α)
    (errs : Nat → CLIError) (N : Nat) (d : δ)
    (hfail : ∀ k, k ≤ N → att k = .error (errs k))
    (hretry : ∀ k, k ≤ N →
      ((errs k).exitCode ≠ 1 ∧ (errs k).exitCode ≠ 2) ∨
        strContains (pyLower (errs k).message) "not found" = false) :
    execute_with_retry att (N : Int) d =
      ⟨N + 1, List.replicate N d, .raised (errs N)⟩ := by
  have hperm : ∀ k, k ≤ N → notFoundPermanent (errs k) = false := by
    intro k hk
    rcases hretry k hk with ⟨h1, h2⟩ | h
    · simp [notFoundPermanent, h1, h2]
    · simp [notFoundPermanent, h]
  unfold execute_with_retry
  rw [if_neg (by omega)]
  have := retryAux_all_fail att d errs N 0
    (fun k hk => hfail k (by omega)) (fun k hk => hperm k (by omega))
  simpa using this

/-- Witness for C1 at a concrete always-failing retryable oracle. -/
theorem C1_witness :
    execute_with_retry
      (fun _ => (Except.error ⟨"boom", ["databricks", "x"], 5, "err"⟩ : Except CLIError Nat))
      (2 : Int) (1 : Nat) =
      ⟨3, [1, 1], .raised ⟨"boom", ["databricks", "x"], 5, "err"⟩⟩ := by
  exact C1_retry_exhaustion
    (fun _ => (Except.error ⟨"boom", ["databricks", "x"], 5, "err"⟩ : Except CLIError Nat))
    (fun _ => ⟨"boom", ["databricks", "x"], 5, "err"⟩) 2 1
    (fun k _ => rfl)
    (fun k _ => Or.inl (show (5 : Int) ≠ 1 ∧ (5 : Int) ≠ 2 from by constructor <;> decide))

/-- C2: a first-attempt `CLIError` with exit code 1 or 2 whose message
contains "not found" case-insensitively is re-raised immediately after
exactly one invocation of `execute`, with no sleep, for every
`max_retries ≥ 0`; and a `CLIError` not matching that classification is
retried (a second invocation occurs whenever `max_retries ≥ 1`). -/
theorem C2_not_found_short_circuit {α δ : Type} (att : Nat → Except CLIError α)
    (e : CLIError) (maxR : Nat) (d : δ)
    (h0 : att 0 = .error e) :
    ((e.exitCode = 1 ∨ e.exitCode = 2) →
      strContains (pyLower e.message) "not found" = true →
      execute_with_retry att (maxR : Int) d = ⟨1, [], .raised e⟩) ∧
    (notFoundPermanent e = false → 1 ≤ maxR →
      2 ≤ (execute_with_retry att (maxR : Int) d).calls) := by
  constructor
  · intro hcode hmsg
    have hperm : notFoundPermanent e = true := by
      rcases hcode with h | h <;> simp [notFoundPermanent, h, hmsg]
    unfold execute_with_retry
    rw [if_neg (by omega)]
    unfold retryAux
    rw [h0]
    dsimp only
    rw [if_pos hperm]
  · intro hperm hge
    unfold execute_with_retry
    rw [if_neg (by omega)]
    unfold retryAux
    rw [h0]
    dsimp only
    rw [hperm]
    simp only [Bool.false_eq_true, if_false]
    obtain ⟨r, hr⟩ : ∃ r, (maxR : Int).toNat = r + 1 := ⟨maxR - 1, by omega⟩
    rw [hr]
    have := retryAux_calls_pos att d r (0 + 1)
    dsimp only
    omega

/-- Witness for C2: a "not found" exit-1 failure stops after one call
even with `max_retries = 5`; a timeout-style code −1 failure is retried. -/
theorem C2_witness :
    execute_with_retry
      (fun _ => (Except.error ⟨"Cluster not found", ["databricks"], 1, ""⟩ : Except CLIError Nat))
      (5 : Int) (1 : Nat) = ⟨1, [], .raised ⟨"Cluster not found", ["databricks"], 1, ""⟩⟩ ∧
    2 ≤ (execute_with_retry
      (fun _ => (Except.error ⟨"Command timed out after 120 seconds", ["databricks"], -1, ""⟩ : Except CLIError Nat))
      (5 : Int) (1 : Nat)).calls := by
  constructor
  · exact (C2_not_found_short_circuit
      (fun _ => (Except.error ⟨"Cluster not found", ["databricks"], 1, ""⟩ : Except CLIError Nat))
      ⟨"Cluster not found", ["databricks"], 1, ""⟩ 5 1 rfl).1
      (Or.inl rfl) (by decide)
  · exact (C2_not_found_short_circuit
      (fun _ => (Except.error ⟨"Command timed out after 120 seconds", ["databricks"], -1, ""⟩ : Except CLIError Nat))
      ⟨"Command timed out after 120 seconds", ["databricks"], -1, ""⟩ 5 1 rfl).2
      (by decide) (by decide)

/-- C9: for a negative `max_retries` the attempt loop body never runs:
`execute` is invoked zero times and the function returns Python `None`
(neither a success payload nor a raised failure). -/
theorem C9_negative_retries_none {α δ : Type} (att : Nat → Except CLIError α)
    (d : δ) (m : Int) (h : m < 0) :
    execute_with_retry att m d = ⟨0, [], .returnedNone⟩ := by
  unfold execute_with_retry
  rw [if_pos h]

/-- Witness for C9 at `max_retries = -1`. -/
theorem C9_witness :
    execute_with_retry
      (fun _ => (Except.ok 7 : Except CLIError Nat)) (-1 : Int) (1 : Nat) =
      ⟨0, [], .returnedNone⟩ :=
  C9_negative_retries_none (fun _ => (Except.ok 7 : Except CLIError Nat)) 1 (-1) (by decide)

/-! ## validate_required_args theorems -/

/-- C8: `validate_required_args` collects every required field that is
absent or mapped to null (not just the first, in `required` order), and
when that collection is non-empty raises a `CLIError` with exit code −1,
empty command, and message "Missing required arguments: " followed by the
comma-joined missing names; with nothing missing it returns normally.
The function is defined purely from the arguments mapping — no process
invocation occurs. -/
theorem C8_validate_collects_all {α : Type} (args : List (String × Option α))
    (required : List String) :
    (∀ f, f ∈ missingFields args required ↔ (f ∈ required ∧ argMissing args f = true)) ∧
    (missingFields args required ≠ [] →
      validate_required_args args required =
        .error ⟨"Missing required arguments: " ++
                  String.intercalate ", " (missingFields args required), [], -1, ""⟩) ∧
    (missingFields args required = [] →
      validate_required_args args required = .ok ()) := by
  refine ⟨fun f => ?_, fun h => ?_, fun h => ?_⟩
  · simp [missingFields, List.mem_filter]
  · simp only [validate_required_args, if_neg h]
  · simp only [validate_required_args, if_pos h]

/-- Witness for C8: an empty mapping with two required fields raises the
exact message naming both. -/
theorem C8_witness :
    missingFields ([] : List (String × Option Nat)) ["a", "b"] = ["a", "b"] ∧
    validate_required_args ([] : List (String × Option Nat)) ["a", "b"] =
      .error ⟨"Missing required arguments: a, b", [], -1, ""⟩ := by
  constructor
  · rfl
  · have h := (C8_validate_collects_all ([] : List (String × Option Nat)) ["a", "b"]).2.1
      (by decide)
    exact h.trans (by rfl)

/-! ## Sanitizer lemmas -/

/-- The sanitizer preserves the length of the vector. -/
theorem sanitizeAux_length (cmd : List String) :
    ∀ flag, (sanitizeAux flag cmd).length = cmd.length := by
  induction cmd with
  | nil => intro flag; rfl
  | cons part rest ih =>
    intro flag
    unfold sanitizeAux
    by_cases h1 : tokenLike (if flag then maskedLiteral else part) = true
    · simp [h1, ih]
    · by_cases h2 : dapiLike (if flag then maskedLiteral else part) = true
      · simp [h1, h2, ih]
      · by_cases h3 : bearerLike (if flag then maskedLiteral else part) = true
        · simp [h1, h2, h3, ih]
        · simp [h1, h2, h3, ih]

/-- The mask literal itself triggers none of the redaction rules (what
the Python loop reads back at an index it has just overwritten). -/
theorem tokenLike_masked : tokenLike maskedLiteral = false := by decide

/-- The mask literal does not contain "dapi" or "pat-". -/
theorem dapiLike_masked : dapiLike maskedLiteral = false := by decide

/-- The mask literal does not contain "bearer". -/
theorem bearerLike_masked : bearerLike maskedLiteral = false := by decide

/-- With the mask-next flag set, the head of the output is the mask and
the flag is consumed. -/
theorem sanitizeAux_true_cons (part : String) (rest : List String) :
    sanitizeAux true (part :: rest) = maskedLiteral :: sanitizeAux false rest := by
  simp [sanitizeAux, tokenLike_masked, dapiLike_masked, bearerLike_masked]

/-- Each output element is the corresponding input element or the mask. -/
theorem sanitizeAux_getD_cases (cmd : List String) :
    ∀ flag i, (sanitizeAux flag cmd).getD i "" = cmd.getD i "" ∨
      (sanitizeAux flag cmd).getD i "" = maskedLiteral := by
  induction cmd with
  | nil => intro flag i; left; rfl
  | cons part rest ih =>
    intro flag i
    cases flag with
    | true =>
      rw [sanitizeAux_true_cons]
      cases i with
      | zero => right; rfl
      | succ j => simpa using ih false j
    | false =>
      unfold sanitizeAux
      by_cases h1 : tokenLike part = true
      · cases i with
        | zero => left; simp [h1]
        | succ j => simpa [h1] using ih true j
      · by_cases h2 : dapiLike part = true
        · cases i with
          | zero => right; simp [h1, h2]
          | succ j => simpa [h1, h2] using ih false j
        · by_cases h3 : bearerLike part = true
          · cases i with
            | zero => right; simp [h1, h2, h3]
            | succ j => simpa [h1, h2, h3] using ih false j
          · cases i with
            | zero => left; simp [h1, h2, h3]
            | succ j => simpa [h1, h2, h3] using ih false j

/-- Shape of each output element: the mask, an element containing
"token"/"password" (kept by rule 1, which only masks its successor), or
an element containing none of the self-masking patterns. -/
theorem sanitizeAux_elem_shape (cmd : List String) :
    ∀ flag i, i < cmd.length →
      (sanitizeAux flag cmd).getD i "" = maskedLiteral ∨
      tokenLike ((sanitizeAux flag cmd).getD i "") = true ∨
      (dapiLike ((sanitizeAux flag cmd).getD i "") = false ∧
        bearerLike ((sanitizeAux flag cmd).getD i "") = false) := by
  induction cmd with
  | nil => intro flag i hi; simp at hi
  | cons part rest ih =>
    intro flag i hi
    cases flag with
    | true =>
      rw [sanitizeAux_true_cons]
      cases i with
      | zero => left; rfl
      | succ j =>
        have hj : j < rest.length := by simpa using hi
        simpa using ih false j hj
    | false =>
      unfold sanitizeAux
      by_cases h1 : tokenLike part = true
      · cases i with
        | zero => right; left; simpa [h1] using h1
        | succ j =>
          have hj : j < rest.length := by simpa using hi
          simpa [h1] using ih true j hj
      · by_cases h2 : dapiLike part = true
        · cases i with
          | zero => left; simp [h1, h2]
          | succ j =>
            have hj : j < rest.length := by simpa using hi
            simpa [h1, h2] using ih false j hj
        · by_cases h3 : bearerLike part = true
          · cases i with
            | zero => left; simp [h1, h2, h3]
            | succ j =>
              have hj : j < rest.length := by simpa using hi
              simpa [h1, h2, h3] using ih false j hj
          · cases i with
            | zero =>
              right; right
              simp only [Bool.not_eq_true] at h2 h3
              simp [h1, h2, h3]
            | succ j =>
              have hj : j < rest.length := by simpa using hi
              simpa [h1, h2, h3] using ih false j hj

/-- An unmasked output element containing "token"/"password" always has a
masked successor (when a successor exists). -/
theorem sanitizeAux_token_masks_next (cmd : List String) :
    ∀ flag i, (sanitizeAux flag cmd).getD i "" ≠ maskedLiteral →
      tokenLike ((sanitizeAux flag cmd).getD i "") = true →
      i + 1 < cmd.length →
      (sanitizeAux flag cmd).getD (i + 1) "" = maskedLiteral := by
  induction cmd with
  | nil => intro flag i _ _ hlt; simp at hlt
  | cons part rest ih =>
    intro flag i hne htok hlt
    cases flag with
    | true =>
      rw [sanitizeAux_true_cons] at hne htok ⊢
      cases i with
      | zero => exact absurd rfl hne
      | succ j =>
        have hj : j + 1 < rest.length := by simpa using hlt
        simpa using ih false j (by simpa using hne) (by simpa using htok) hj
    | false =>
      unfold sanitizeAux at hne htok ⊢
      by_cases h1 : tokenLike part = true
      · cases i with
        | zero =>
          obtain ⟨r, rs, hr⟩ : ∃ r rs, rest = r :: rs := by
            cases rest with
            | nil => simp at hlt
            | cons r rs => exact ⟨r, rs, rfl⟩
          subst hr
          simp [h1, sanitizeAux_true_cons]
        | succ j =>
          have hj : j + 1 < rest.length := by simpa using hlt
          simpa [h1] using ih true j (by simpa [h1] using hne) (by simpa [h1] using htok) hj
      · by_cases h2 : dapiLike part = true
        · cases i with
          | zero => simp [h1, h2] at hne
          | succ j =>
            have hj : j + 1 < rest.length := by simpa using hlt
            simpa [h1, h2] using ih false j (by simpa [h1, h2] using hne)
              (by simpa [h1, h2] using htok) hj
        · by_cases h3 : bearerLike part = true
          · cases i with
            | zero => simp [h1, h2, h3] at hne
            | succ j =>
              have hj : j + 1 < rest.length := by simpa using hlt
              simpa [h1, h2, h3] using ih false j (by simpa [h1, h2, h3] using hne)
                (by simpa [h1, h2, h3] using htok) hj
          · cases i with
            | zero => exact absurd (by simpa [h1, h2, h3] using htok) h1
            | succ j =>
              have hj : j + 1 < rest.length := by simpa using hlt
              simpa [h1, h2, h3] using ih false j (by simpa [h1, h2, h3] using hne)
                (by simpa [h1, h2, h3] using htok) hj

/-- C7 counterexample: the claim says the sanitized output never contains
the masked secret patterns, but an argument that contains both "token"
and "dapi" is kept verbatim (the rules are an elif chain: the
token/password rule masks only the following argument, never the argument
itself), so "dapi" survives into the output. -/
theorem C7_counterexample :
    sanitize_command_for_logging ["token=dapi123"] = "token=dapi123" ∧
    strContains (sanitize_command_for_logging ["token=dapi123"]) "dapi" = true := by
  constructor <;> decide

/-- C7 amended: `sanitize_command_for_logging` joins with single spaces a
transformed copy of its input (the input vector itself is untouched —
the model is a pure function of it); the transformed vector has the same
length; each element is the corresponding input element or the literal
mask; every output element is the mask, or contains "token"/"password"
(such an element is never itself masked, even if it also contains "dapi",
"pat-" or "bearer"), or contains none of "dapi"/"pat-"/"bearer"; and an
unmasked element containing "token"/"password" always has its successor
masked when one exists.  The next-argument rule and the self-mask rules
remain independent and may both fire on one vector (at different
indices). -/
theorem C7_sanitize_amended (cmd : List String) :
    sanitize_command_for_logging cmd = String.intercalate " " (sanitizeAux false cmd) ∧
    (sanitizeAux false cmd).length = cmd.length ∧
    (∀ i, (sanitizeAux false cmd).getD i "" = cmd.getD i "" ∨
      (sanitizeAux false cmd).getD i "" = maskedLiteral) ∧
    (∀ i, i < cmd.length →
      (sanitizeAux false cmd).getD i "" = maskedLiteral ∨
      tokenLike ((sanitizeAux false cmd).getD i "") = true ∨
      (dapiLike ((sanitizeAux false cmd).getD i "") = false ∧
        bearerLike ((sanitizeAux false cmd).getD i "") = false)) ∧
    (∀ i, (sanitizeAux false cmd).getD i "" ≠ maskedLiteral →
      tokenLike ((sanitizeAux false cmd).getD i "") = true →
      i + 1 < cmd.length →
      (sanitizeAux false cmd).getD (i + 1) "" = maskedLiteral) :=
  ⟨rfl, sanitizeAux_length cmd false, sanitizeAux_getD_cases cmd false,
    sanitizeAux_elem_shape cmd false, sanitizeAux_token_masks_next cmd false⟩

/-- Witness for C7 amended, on a vector where both rules fire: rule 1
masks the value after "--token", rule 2 masks the "dapi..." argument. -/
theorem C7_witness :
    sanitize_command_for_logging ["--token", "secret", "dapi123"] =
      "--token ***MASKED*** ***MASKED***" ∧
    (sanitizeAux false ["--token", "secret", "dapi123"]).getD 1 "" = maskedLiteral ∧
    (sanitizeAux false ["--token", "secret", "dapi123"]).getD 2 "" = maskedLiteral := by
  refine ⟨?_, ?_, ?_⟩
  · have h := (C7_sanitize_amended ["--token", "secret", "dapi123"]).1
    exact h.trans (by decide)
  · exact (C7_sanitize_amended ["--token", "secret", "dapi123"]).2.2.2.2 0
      (by decide) (by decide) (by decide)
  · rcases (C7_sanitize_amended ["--token", "secret", "dapi123"]).2.2.1 2 with h | h
    · exact absurd h (by decide)
    · exact h

/-! ## String containment lemmas -/

/-- Reflexivity of the prefix check. -/
theorem startsSeq_refl : ∀ l : List Char, startsSeq l l = true := by
  intro l
  induction l with
  | nil => rfl
  | cons c cs ih => simp [startsSeq, ih]

/-- A list contains its own suffix. -/
theorem seqContains_append_self (pre needle : List Char) :
    seqContains needle (pre ++ needle) = true := by
  induction pre with
  | nil =>
    cases needle with
    | nil => rfl
    | cons c cs => simp [seqContains, startsSeq_refl]
  | cons p ps ih => simp [seqContains, ih]

/-- A string contains its own suffix. -/
theorem strContains_append_right (p s : String) : strContains (p ++ s) s = true := by
  unfold strContains
  have h : (p ++ s).toList = p.toList ++ s.toList := String.data_append p s
  rw [h]
  exact seqContains_append_self p.toList s.toList

/-! ## Executor theorems -/

/-- C3: when the awaited completion exceeds the timeout, `execute`
raises a `CLIError` with exit code −1, message containing "timed out
after N seconds", empty stderr, and command equal to the full vector
`base ++ args`, from which the original args are recoverable. -/
theorem C3_timeout_failure (base args : List String) (timeoutSec : Nat)
    (expectJson : Bool) :
    execute base timeoutSec args expectJson .timedOut =
      .error ⟨"Command timed out after " ++ toString timeoutSec ++ " seconds",
              base ++ args, -1, ""⟩ ∧
    strContains ("Command timed out after " ++ toString timeoutSec ++ " seconds")
      ("timed out after " ++ toString timeoutSec ++ " seconds") = true ∧
    (base ++ args).drop base.length = args := by
  refine ⟨rfl, ?_, by simp⟩
  have h : "Command timed out after " ++ toString timeoutSec ++ " seconds"
      = "Command " ++ ("timed out after " ++ toString timeoutSec ++ " seconds") := by
    apply String.ext
    simp [String.data_append, List.append_assoc]
  rw [h]
  exact strContains_append_right _ _

/-- C4: on exit 0 in structured mode, when the normalizer produces a
mapping carrying an "error" key, `execute` raises a `CLIError` with exit
code 0, message "CLI returned error: " followed by the error value, and
stderr set to the normalizer's raw-output capture (empty when absent);
when the mapping has no "error" key the parsed value is returned
as-is. -/
theorem C4_soft_error_mapping (base : List String) (timeoutSec : Nat)
    (args : List String) (out errS : String) (fields : List (String × Json))
    (hp : parse_json_output out = .obj fields) :
    (∀ v, fields.lookup "error" = some v →
      execute base timeoutSec args true (.completed 0 out errS) =
        .error ⟨"CLI returned error: " ++ pyStr v, base ++ args, 0,
                rawOutputCapture fields⟩) ∧
    (fields.lookup "error" = none →
      execute base timeoutSec args true (.completed 0 out errS) = .ok (.obj fields)) := by
  constructor
  · intro v hv
    unfold execute
    simp only [hp, errorProbe, hv]
    rfl
  · intro hnone
    unfold execute
    simp only [hp, errorProbe, hnone]
    rfl

/-- Witness for C4: `'{"clusters": []}'` round-trips to success, and an
empty stdout produces the code-0 soft failure with the fallback
message. -/
theorem C4_witness :
    execute ["databricks"] 120 ["clusters", "list", "--output", "json"] true
      (.completed 0 "\x7b\"clusters\": []\x7d" "") =
        .ok (.obj [("clusters", .arr [])]) ∧
    execute ["databricks"] 120 ["clusters", "list"] true (.completed 0 "" "") =
      .error ⟨"CLI returned error: No data returned",
              ["databricks", "clusters", "list"], 0, ""⟩ := by
  constructor
  · exact (C4_soft_error_mapping ["databricks"] 120 ["clusters", "list", "--output", "json"]
      "\x7b\"clusters\": []\x7d" "" [("clusters", .arr [])] rfl).2 rfl
  · exact ((C4_soft_error_mapping ["databricks"] 120 ["clusters", "list"]
      "" "" [("error", .str "No data returned")] rfl).1
      (.str "No data returned") rfl).trans (by rfl)

/-- C10: on exit 0 in structured mode with stdout parsing to a JSON
array, `execute` returns the array itself when "error" is not an element
(despite the declared mapping return type); when "error" is an element,
the `result["error"]` subscript raises a TypeError and `execute` raises a
`CLIError` with exit code −2 and message prefixed "Unexpected
error: ". -/
theorem C10_array_result (base : List String) (timeoutSec : Nat)
    (args : List String) (out errS : String) (xs : List Json)
    (hp : parse_json_output out = .arr xs) :
    (xs.any isStrError = false →
      execute base timeoutSec args true (.completed 0 out errS) = .ok (.arr xs)) ∧
    (xs.any isStrError = true →
      execute base timeoutSec args true (.completed 0 out errS) =
        .error ⟨"Unexpected error: " ++ listIndexTypeErr, base ++ args, -2,
                listIndexTypeErr⟩) := by
  constructor
  · intro hno
    unfold execute
    simp only [hp, errorProbe, hno]
    rfl
  · intro hyes
    unfold execute
    simp only [hp, errorProbe, hyes]
    rfl

/-- Witness for C10: a bare array succeeds as-is; an array containing
the string "error" produces the code −2 unexpected-error failure. -/
theorem C10_witness :
    execute ["databricks"] 120 ["jobs", "list"] true
      (.completed 0 "[\"a\", 1]" "") = .ok (.arr [.str "a", .num 1]) ∧
    execute ["databricks"] 120 ["jobs", "list"] true
      (.completed 0 "[\"error\"]" "") =
      .error ⟨"Unexpected error: list indices must be integers or slices, not str",
              ["databricks", "jobs", "list"], -2,
              "list indices must be integers or slices, not str"⟩ := by
  constructor
  · exact (C10_array_result ["databricks"] 120 ["jobs", "list"] "[\"a\", 1]" ""
      [.str "a", .num 1] rfl).1 rfl
  · exact ((C10_array_result ["databricks"] 120 ["jobs", "list"] "[\"error\"]" ""
      [.str "error"] rfl).2 rfl).trans (by rfl)

/-! ## Error extractor theorems -/

/-- A string whose data starts non-empty stays non-empty under append. -/
theorem strAppend_ne_empty (a b : String) (h : a.data ≠ []) : a ++ b ≠ "" := by
  intro hc
  have hdata : (a ++ b).data = [] := by rw [hc]
  rw [String.data_append] at hdata
  exact h (List.append_eq_nil.mp hdata).1

/-- `firstTruthyErr` only returns truthy values (the Python `or` chain
followed by `if error_msg:`). -/
theorem firstTruthyErr_truthy (fields : List (String × Json)) (v : Json)
    (h : firstTruthyErr fields = some v) : jsonTruthy v = true := by
  unfold firstTruthyErr at h
  repeat' split at h
  all_goals simp_all

/-- The stdout contribution of the extractor is always truthy: a truthy
structured value, or the never-empty "Output: " fallback. -/
theorem stdoutErrPart_truthy (stdout : String) (v : Json)
    (h : stdoutErrPart stdout = some v) : jsonTruthy v = true := by
  unfold stdoutErrPart at h
  split at h
  · split at h
    · exact firstTruthyErr_truthy _ _ (by simpa using h)
    · simp at h
    · simp only [Option.some.injEq] at h
      subst h
      simp only [jsonTruthy, ne_eq, decide_eq_true_eq]
      exact strAppend_ne_empty "Output: " _ (by decide)
  · simp at h

/-- C5 counterexample: the claim is false in two places.  First, the
stdout branch is not guarded by "else": with non-empty stderr AND
error-bearing stdout, the stdout value is still parsed and included
(joined with " | "), while the claim says stdout is only consulted when
stderr is empty.  Second, the function can throw: a non-string
structured error value (here the int 5) makes the final join raise a
TypeError, while the claim says it never throws. -/
theorem C5_counterexample :
    extract_error_from_cli_output "\x7b\"error\": \"X\"\x7d" "boom" 1 =
      .ok "Error: boom | X" ∧
    extract_error_from_cli_output "\x7b\"error\": 5\x7d" "" 1 =
      .error "sequence item 0: expected str instance, int found" := by
  constructor <;> rfl


/-- Joining a single string part. -/
theorem pyJoinStr_single (sep a : String) :
    pyJoinStr sep [.str a] = .ok a := by
  simp [pyJoinStr, pyJoinAux, String.intercalate, String.intercalate.go]

/-- Joining two string parts inserts the separator. -/
theorem pyJoinStr_pair (sep a b : String) :
    pyJoinStr sep [.str a, .str b] = .ok (a ++ sep ++ b) := by
  simp [pyJoinStr, pyJoinAux, String.intercalate, String.intercalate.go]

/-- When the stdout branch contributes a non-string value, the join
raises a TypeError (here: the `Except.error` outcome). -/
theorem extract_error_nonstr (stdout stderr : String) (ec : Int) (v : Json)
    (hv : stdoutErrPart stdout = some v) (hnostr : ∀ w, v ≠ .str w) :
    ∃ m, extract_error_from_cli_output stdout stderr ec = .error m := by
  unfold extract_error_from_cli_output
  by_cases hs : stderr = "" <;> cases v <;>
    simp_all [pyJoinStr, pyJoinAux]

/-- C5 amended: the stderr part and the stdout part of
`extract_error_from_cli_output` are independent — the stdout branch fires
whenever stdout is non-empty and contains "error" case-insensitively,
even when stderr is non-empty — and the parts are joined with " | ".
With non-empty stderr every returned string starts with "Error: " plus
the trimmed stderr; the stdout part is the first truthy of keys `error`,
`message`, `error_message`, `detail` when stdout parses to a mapping, or
"Output: " plus stdout truncated to 500 characters when parsing fails;
with no part produced the result is "Command failed with exit code N".
Every returned string is non-empty, and the function returns (rather
than throwing a TypeError in the join) whenever any extracted structured
error value is a string. -/
theorem C5_extract_error_amended (stdout stderr : String) (ec : Int) :
    (∀ s, extract_error_from_cli_output stdout stderr ec = .ok s → s ≠ "") ∧
    (stderr ≠ "" → ∀ s, extract_error_from_cli_output stdout stderr ec = .ok s →
      ∃ t, s = "Error: " ++ pyStrip stderr ++ t) ∧
    (∀ v, stdoutErrPart stdout = some (.str v) →
      extract_error_from_cli_output stdout stderr ec =
        .ok (if stderr = "" then v else "Error: " ++ pyStrip stderr ++ " | " ++ v)) ∧
    (stderr = "" → stdoutErrPart stdout = none →
      extract_error_from_cli_output stdout stderr ec =
        .ok ("Command failed with exit code " ++ toString ec)) ∧
    ((∀ v, stdoutErrPart stdout = some v → ∃ w, v = .str w) →
      ∃ s, extract_error_from_cli_output stdout stderr ec = .ok s) := by
  rcases hv : stdoutErrPart stdout with _ | v
  · by_cases hs : stderr = ""
    · have heval : extract_error_from_cli_output stdout stderr ec =
          .ok ("Command failed with exit code " ++ toString ec) := by
        unfold extract_error_from_cli_output
        simp [hs, hv, pyJoinStr_single]
      refine ⟨?_, fun hne => absurd hs hne, ?_, fun _ _ => heval, fun _ => ⟨_, heval⟩⟩
      · intro s hok
        rw [heval] at hok
        cases hok
        exact strAppend_ne_empty _ _ (by decide)
      · intro v2 hv2
        cases hv2
    · have heval : extract_error_from_cli_output stdout stderr ec =
          .ok ("Error: " ++ pyStrip stderr) := by
        unfold extract_error_from_cli_output
        simp [hs, hv, pyJoinStr_single]
      refine ⟨?_, ?_, ?_, fun he _ => absurd he hs, fun _ => ⟨_, heval⟩⟩
      · intro s hok
        rw [heval] at hok
        cases hok
        exact strAppend_ne_empty _ _ (by decide)
      · intro _ s hok
        rw [heval] at hok
        cases hok
        exact ⟨"", by simp⟩
      · intro v2 hv2
        cases hv2
  · by_cases hstr : ∃ w, v = .str w
    · obtain ⟨w, rfl⟩ := hstr
      have hw : w ≠ "" := by
        have := stdoutErrPart_truthy stdout (.str w) hv
        simpa [jsonTruthy] using this
      by_cases hs : stderr = ""
      · subst hs
        have heval : extract_error_from_cli_output stdout "" ec = .ok w := by
          unfold extract_error_from_cli_output
          simp [hv, pyJoinStr_single]
        refine ⟨?_, fun hne => absurd rfl hne, ?_, ?_, fun _ => ⟨_, heval⟩⟩
        · intro s hok
          rw [heval] at hok
          cases hok
          exact hw
        · intro v2 hv2
          cases hv2
          simpa using heval
        · intro _ hnone
          cases hnone
      · have heval : extract_error_from_cli_output stdout stderr ec =
            .ok ("Error: " ++ pyStrip stderr ++ " | " ++ w) := by
          unfold extract_error_from_cli_output
          simp [hs, hv, pyJoinStr_pair, String.append_assoc]
        refine ⟨?_, ?_, ?_, fun he _ => absurd he hs, fun _ => ⟨_, heval⟩⟩
        · intro s hok
          rw [heval] at hok
          cases hok
          exact strAppend_ne_empty _ _ (by simp [String.data_append])
        · intro _ s hok
          rw [heval] at hok
          cases hok
          exact ⟨" | " ++ w, by simp [String.append_assoc]⟩
        · intro v2 hv2
          cases hv2
          simp [hs, heval]
    · obtain ⟨m, heval⟩ :=
        extract_error_nonstr stdout stderr ec v hv (fun w hw => hstr ⟨w, hw⟩)
      refine ⟨?_, ?_, ?_, ?_, ?_⟩
      · intro s hok
        rw [heval] at hok
        cases hok
      · intro _ s hok
        rw [heval] at hok
        cases hok
      · intro v2 hv2
        cases hv2
        exact absurd ⟨v2, rfl⟩ hstr
      · intro _ hnone
        cases hnone
      · intro hall
        obtain ⟨w, hw⟩ := hall v rfl
        exact absurd ⟨w, hw⟩ hstr

/-- Witness for C5 amended at concrete inputs: structured stdout error
with empty stderr yields exactly "X"; all-empty inputs with exit code 2
yield the fallback. -/
theorem C5_witness :
    extract_error_from_cli_output "\x7b\"error\": \"X\"\x7d" "" 1 = .ok "X" ∧
    extract_error_from_cli_output "" "" 2 = .ok "Command failed with exit code 2" := by
  constructor
  · have h := (C5_extract_error_amended "\x7b\"error\": \"X\"\x7d" "" 1).2.2.1 "X" rfl
    simpa using h
  · exact ((C5_extract_error_amended "" "" 2).2.2.2.1 rfl rfl).trans (by rfl)

/-! ## Round trip: string escapes -/

/-- Characters that differ in code point differ. -/
theorem char_ne_of_toNat_ne (c d : Char) (h : c.toNat ≠ d.toNat) : c ≠ d :=
  fun he => h (he ▸ rfl)

/-- Every `Char` is a valid scalar value: below the surrogate block, or
above it and below 0x110000. -/
theorem char_toNat_valid (c : Char) :
    c.toNat < 55296 ∨ (57343 < c.toNat ∧ c.toNat < 1114112) := c.valid

/-- Hex digits decode their value. -/
theorem hexDigitVal_hexDigitChar (k : Nat) (h : k < 16) :
    hexDigitVal (hexDigitChar k) = some k := by
  interval_cases k <;> rfl

/-- A four-digit escape body decodes the encoded value. -/
theorem hex4val_digits (n : Nat) (h : n < 65536) :
    hex4val (hexDigitChar (n / 4096 % 16)) (hexDigitChar (n / 256 % 16))
      (hexDigitChar (n / 16 % 16)) (hexDigitChar (n % 16)) = some n := by
  rw [hex4val, hexDigitVal_hexDigitChar _ (by omega), hexDigitVal_hexDigitChar _ (by omega),
    hexDigitVal_hexDigitChar _ (by omega), hexDigitVal_hexDigitChar _ (by omega)]
  simp only [Option.some.injEq]
  omega

/-- Closing quote ends the scan. -/
theorem parseStrAux_quote (acc cont : List Char) :
    parseStrAux acc ('"' :: cont) = some (⟨acc.reverse⟩, cont) := by
  rw [parseStrAux]; rfl

/-- An unescaped printable character is consumed. -/
theorem parseStrAux_plain (c : Char) (acc cont : List Char)
    (h1 : c ≠ '"') (h2 : c ≠ '\\') (h3 : ¬ c.toNat < 32) :
    parseStrAux acc (c :: cont) = parseStrAux (c :: acc) cont := by
  rw [parseStrAux, if_neg h1, if_neg h2, if_neg h3]

/-- A non-surrogate `\uXXXX` escape decodes to its scalar. -/
theorem parseU_decode (acc cont : List Char) (n : Nat) (h16 : n < 65536)
    (hns : ¬ (55296 ≤ n ∧ n ≤ 57343)) :
    parseU acc (hexDigitChar (n / 4096 % 16) :: hexDigitChar (n / 256 % 16) ::
      hexDigitChar (n / 16 % 16) :: hexDigitChar (n % 16) :: cont) =
      parseStrAux (Char.ofNat n :: acc) cont := by
  rw [parseU, hex4val_digits n h16]
  have hc1 : (decide (55296 ≤ n) && decide (n ≤ 56319)) = false := by
    simp only [Bool.and_eq_false_iff, decide_eq_false_iff_not]
    omega
  have hc2 : (decide (56320 ≤ n) && decide (n ≤ 57343)) = false := by
    simp only [Bool.and_eq_false_iff, decide_eq_false_iff_not]
    omega
  simp only [hc1, hc2, Bool.false_eq_true, if_false]

/-- A high-surrogate escape hands over to the low-surrogate scanner. -/
theorem parseU_high (acc cont : List Char) (n : Nat) (h16 : n < 65536)
    (hhi : 55296 ≤ n ∧ n ≤ 56319) :
    parseU acc (hexDigitChar (n / 4096 % 16) :: hexDigitChar (n / 256 % 16) ::
      hexDigitChar (n / 16 % 16) :: hexDigitChar (n % 16) :: cont) =
      parseLow acc n cont := by
  rw [parseU, hex4val_digits n h16]
  have hc1 : (decide (55296 ≤ n) && decide (n ≤ 56319)) = true := by
    simp only [Bool.and_eq_true, decide_eq_true_eq]
    omega
  simp only [hc1, if_true]

/-- A low-surrogate escape after a high surrogate decodes the combined
scalar. -/
theorem parseLow_decode (acc cont : List Char) (n m : Nat) (hm16 : m < 65536)
    (hm : 56320 ≤ m ∧ m ≤ 57343) :
    parseLow acc n ('\\' :: 'u' :: hexDigitChar (m / 4096 % 16) ::
      hexDigitChar (m / 256 % 16) :: hexDigitChar (m / 16 % 16) ::
      hexDigitChar (m % 16) :: cont) =
      parseStrAux (Char.ofNat (65536 + (n - 55296) * 1024 + (m - 56320)) :: acc)
        cont := by
  rw [parseLow]
  have hs : (decide (('\\' : Char) = '\\') && decide (('u' : Char) = 'u')) = true := by decide
  rw [if_pos hs, hex4val_digits m hm16]
  have hc : (decide (56320 ≤ m) && decide (m ≤ 57343)) = true := by
    simp only [Bool.and_eq_true, decide_eq_true_eq]
    omega
  simp only [hc, if_true]

/-- One serialized character is scanned back to itself. -/
theorem parseStrAux_escapeChar (c : Char) (acc cont : List Char) :
    parseStrAux acc (escapeChar c ++ cont) = parseStrAux (c :: acc) cont := by
  by_cases h1 : c = '"'
  · subst h1
    show parseStrAux acc ('\\' :: '"' :: cont) = _
    rw [parseStrAux, parseEsc]
    rfl
  by_cases h2 : c = '\\'
  · subst h2
    show parseStrAux acc ('\\' :: '\\' :: cont) = _
    rw [parseStrAux, parseEsc]
    rfl
  by_cases h3 : c.toNat = 8
  · have hc : c = Char.ofNat 8 := by
      have h := Char.ofNat_toNat c
      rw [h3] at h
      exact h.symm
    subst hc
    show parseStrAux acc ('\\' :: 'b' :: cont) = _
    rw [parseStrAux, parseEsc]
    rfl
  by_cases h4 : c.toNat = 9
  · have hc : c = Char.ofNat 9 := by
      have h := Char.ofNat_toNat c
      rw [h4] at h
      exact h.symm
    subst hc
    show parseStrAux acc ('\\' :: 't' :: cont) = _
    rw [parseStrAux, parseEsc]
    rfl
  by_cases h5 : c.toNat = 10
  · have hc : c = Char.ofNat 10 := by
      have h := Char.ofNat_toNat c
      rw [h5] at h
      exact h.symm
    subst hc
    show parseStrAux acc ('\\' :: 'n' :: cont) = _
    rw [parseStrAux, parseEsc]
    rfl
  by_cases h6 : c.toNat = 12
  · have hc : c = Char.ofNat 12 := by
      have h := Char.ofNat_toNat c
      rw [h6] at h
      exact h.symm
    subst hc
    show parseStrAux acc ('\\' :: 'f' :: cont) = _
    rw [parseStrAux, parseEsc]
    rfl
  by_cases h7 : c.toNat = 13
  · have hc : c = Char.ofNat 13 := by
      have h := Char.ofNat_toNat c
      rw [h7] at h
      exact h.symm
    subst hc
    show parseStrAux acc ('\\' :: 'r' :: cont) = _
    rw [parseStrAux, parseEsc]
    rfl
  by_cases h8 : 32 ≤ c.toNat ∧ c.toNat ≤ 126
  · have he : escapeChar c = [c] := by
      rw [escapeChar, if_neg h1, if_neg h2, if_neg h3, if_neg h4, if_neg h5, if_neg h6,
        if_neg h7]
      rw [if_pos]
      simp only [Bool.and_eq_true, decide_eq_true_eq]
      omega
    rw [he]
    exact parseStrAux_plain c acc cont h1 h2 (by omega)
  by_cases h9 : c.toNat < 65536
  · have he : escapeChar c = uEscape c.toNat := by
      rw [escapeChar, if_neg h1, if_neg h2, if_neg h3, if_neg h4, if_neg h5, if_neg h6,
        if_neg h7]
      rw [if_neg, if_pos]
      · simpa using h9
      · simp only [Bool.and_eq_true, decide_eq_true_eq]
        omega
    rw [he]
    show parseStrAux acc ('\\' :: 'u' :: hexDigitChar (c.toNat / 4096 % 16) ::
      hexDigitChar (c.toNat / 256 % 16) :: hexDigitChar (c.toNat / 16 % 16) ::
      hexDigitChar (c.toNat % 16) :: cont) = _
    have hns : ¬ (55296 ≤ c.toNat ∧ c.toNat ≤ 57343) := by
      rcases char_toNat_valid c with h | h <;> omega
    rw [parseStrAux, if_neg (show ¬ ('\\' : Char) = '"' by decide),
      if_pos (show ('\\' : Char) = '\\' from rfl), parseEsc,
      if_pos (show ('u' : Char) = 'u' from rfl),
      parseU_decode acc cont c.toNat h9 hns, Char.ofNat_toNat]
  · have hbig : 65536 ≤ c.toNat := by omega
    have hlt : c.toNat < 1114112 := by
      rcases char_toNat_valid c with h | h <;> omega
    have he : escapeChar c =
        uEscape (55296 + (c.toNat - 65536) / 1024) ++
          uEscape (56320 + (c.toNat - 65536) % 1024) := by
      rw [escapeChar, if_neg h1, if_neg h2, if_neg h3, if_neg h4, if_neg h5, if_neg h6,
        if_neg h7, if_neg, if_neg]
      · simpa using h9
      · simp only [Bool.and_eq_true, decide_eq_true_eq]
        omega
    rw [he]
    show parseStrAux acc ('\\' :: 'u' ::
      hexDigitChar ((55296 + (c.toNat - 65536) / 1024) / 4096 % 16) ::
      hexDigitChar ((55296 + (c.toNat - 65536) / 1024) / 256 % 16) ::
      hexDigitChar ((55296 + (c.toNat - 65536) / 1024) / 16 % 16) ::
      hexDigitChar ((55296 + (c.toNat - 65536) / 1024) % 16) :: ('\\' :: 'u' ::
      hexDigitChar ((56320 + (c.toNat - 65536) % 1024) / 4096 % 16) ::
      hexDigitChar ((56320 + (c.toNat - 65536) % 1024) / 256 % 16) ::
      hexDigitChar ((56320 + (c.toNat - 65536) % 1024) / 16 % 16) ::
      hexDigitChar ((56320 + (c.toNat - 65536) % 1024) % 16) :: cont)) = _
    rw [parseStrAux, if_neg (show ¬ ('\\' : Char) = '"' by decide),
      if_pos (show ('\\' : Char) = '\\' from rfl), parseEsc,
      if_pos (show ('u' : Char) = 'u' from rfl),
      parseU_high _ _ _ (by omega) (by constructor <;> omega),
      parseLow_decode _ _ _ _ (by omega) (by constructor <;> omega)]
    have harith : 65536 + (55296 + (c.toNat - 65536) / 1024 - 55296) * 1024 +
        (56320 + (c.toNat - 65536) % 1024 - 56320) = c.toNat := by omega
    rw [harith, Char.ofNat_toNat]

/-- A serialized string body scans back to the original characters. -/
theorem parseStrAux_flatMap (cs : List Char) :
    ∀ acc cont, parseStrAux acc (cs.flatMap escapeChar ++ '"' :: cont) =
      some (⟨acc.reverse ++ cs⟩, cont) := by
  induction cs with
  | nil =>
    intro acc cont
    simp only [List.flatMap_nil, List.nil_append]
    rw [parseStrAux_quote]
    simp
  | cons c cs ih =>
    intro acc cont
    simp only [List.flatMap_cons, List.append_assoc]
    rw [parseStrAux_escapeChar, ih]
    simp

/-- A serialized string literal parses back to the original string. -/
theorem parseStrAux_dumpString (s : String) (cont : List Char) :
    parseStrAux [] (s.toList.flatMap escapeChar ++ '"' :: cont) = some (s, cont) := by
  rw [parseStrAux_flatMap]
  rfl

/-! ## Round trip: numbers -/

/-- The digit printer does not depend on its fuel, given enough of it. -/
theorem natDigsAux_fuel (n : Nat) :
    ∀ f1 f2, n < f1 → n < f2 → natDigsAux f1 n = natDigsAux f2 n := by
  induction n using Nat.strong_induction_on with
  | _ n ih =>
    intro f1 f2 h1 h2
    obtain ⟨g1, rfl⟩ : ∃ g, f1 = g + 1 := ⟨f1 - 1, by omega⟩
    obtain ⟨g2, rfl⟩ : ∃ g, f2 = g + 1 := ⟨f2 - 1, by omega⟩
    rw [natDigsAux, natDigsAux]
    by_cases h : n < 10
    · rw [if_pos h, if_pos h]
    · rw [if_neg h, if_neg h]
      have hdiv : n / 10 < n := Nat.div_lt_self (by omega) (by omega)
      rw [ih (n / 10) hdiv g1 g2 (by omega) (by omega)]

/-- Unfolding equation for the decimal printer. -/
theorem natDigs_unfold (n : Nat) :
    natDigs n = if n < 10 then [hexDigitChar n]
      else natDigs (n / 10) ++ [hexDigitChar (n % 10)] := by
  rw [natDigs, natDigsAux]
  by_cases h : n < 10
  · rw [if_pos h, if_pos h]
  · rw [if_neg h, if_neg h, natDigs]
    have hdiv : n / 10 < n := Nat.div_lt_self (by omega) (by omega)
    rw [natDigsAux_fuel (n / 10) n (n / 10 + 1) (by omega) (by omega)]

/-- Decimal digit characters are digits. -/
theorem isDig_hexDigitChar (k : Nat) (h : k < 10) : isDig (hexDigitChar k) = true := by
  interval_cases k <;> rfl

/-- Every character the decimal printer emits is a digit. -/
theorem natDigs_all_digits (n : Nat) : ∀ c ∈ natDigs n, isDig c = true := by
  induction n using Nat.strong_induction_on with
  | _ n ih =>
    intro c hc
    rw [natDigs_unfold] at hc
    by_cases h : n < 10
    · rw [if_pos h] at hc
      simp only [List.mem_singleton] at hc
      subst hc
      exact isDig_hexDigitChar n h
    · rw [if_neg h] at hc
      rcases List.mem_append.mp hc with hm | hm
      · exact ih (n / 10) (Nat.div_lt_self (by omega) (by omega)) c hm
      · simp only [List.mem_singleton] at hm
        subst hm
        exact isDig_hexDigitChar _ (by omega)

/-- The decimal printer emits at least one digit, the first one nonzero
for a positive number. -/
theorem natDigs_head (n : Nat) :
    ∃ c cs, natDigs n = c :: cs ∧ isDig c = true ∧ (0 < n → c ≠ '0') ∧
      (n = 0 → c = '0') := by
  induction n using Nat.strong_induction_on with
  | _ n ih =>
    rw [natDigs_unfold]
    by_cases h : n < 10
    · rw [if_pos h]
      refine ⟨hexDigitChar n, [], rfl, isDig_hexDigitChar n h, ?_, ?_⟩
      · intro hn
        interval_cases n <;> simp_all <;> decide
      · intro hn
        subst hn
        rfl
    · rw [if_neg h]
      obtain ⟨c, cs, hcs, hdig, hne, _⟩ := ih (n / 10) (Nat.div_lt_self (by omega) (by omega))
      exact ⟨c, cs ++ [hexDigitChar (n % 10)], by rw [hcs]; rfl, hdig,
        fun _ => hne (by omega), fun hn => absurd hn (by omega)⟩

/-- Folding the digit values over an appended digit. -/
theorem natOfDigits_append_digit (ds : List Char) (c : Char) :
    natOfDigits (ds ++ [c]) = natOfDigits ds * 10 + (c.toNat - 48) := by
  rw [natOfDigits, List.foldl_append]
  rfl

/-- The decimal printer and the digit folder are inverse. -/
theorem natOfDigits_natDigs (n : Nat) : natOfDigits (natDigs n) = n := by
  induction n using Nat.strong_induction_on with
  | _ n ih =>
    rw [natDigs_unfold]
    by_cases h : n < 10
    · rw [if_pos h]
      interval_cases n <;> rfl
    · rw [if_neg h, natOfDigits_append_digit,
        ih (n / 10) (Nat.div_lt_self (by omega) (by omega))]
      have : (hexDigitChar (n % 10)).toNat = n % 10 + 48 := by
        have h10 : n % 10 < 10 := by omega
        interval_cases hh : n % 10 <;> simp_all <;> rfl
      omega

/-- `takeWhile`/`dropWhile` split exactly at the boundary of an all-true
block followed by a failing head. -/
theorem takeWhile_dropWhile_split (p : Char → Bool) (l l' : List Char)
    (hl : ∀ x ∈ l, p x = true)
    (hl' : ∀ c cs, l' = c :: cs → p c = false) :
    (l ++ l').takeWhile p = l ∧ (l ++ l').dropWhile p = l' := by
  induction l with
  | nil =>
    simp only [List.nil_append]
    cases l' with
    | nil => exact ⟨rfl, rfl⟩
    | cons c cs =>
      simp [List.takeWhile_cons, List.dropWhile_cons, hl' c cs rfl]
  | cons x xs ih =>
    have hx : p x = true := hl x (by simp)
    obtain ⟨h1, h2⟩ := ih (fun y hy => hl y (by simp [hy]))
    simp [List.cons_append, List.takeWhile_cons, List.dropWhile_cons, hx, h1, h2]

/-- `numSafe` gives the two boundary facts. -/
theorem numSafe_facts (cs : List Char) (h : numSafe cs = true) :
    headFloaty cs = false ∧ (∀ c cs2, cs = c :: cs2 → isDig c = false) := by
  cases cs with
  | nil => exact ⟨rfl, fun c cs2 hcs => by cases hcs⟩
  | cons c cs2 =>
    rw [numSafe, Bool.and_eq_true] at h
    obtain ⟨h1, h2⟩ := h
    constructor
    · simpa [headFloaty] using h1
    · intro c3 cs3 hcs
      cases hcs
      simpa using h2

/-- An unsigned serialized number parses back, provided the continuation
does not extend the token. -/
theorem parseUNum_natDigs (n : Nat) (rest : List Char) (hsafe : numSafe rest = true) :
    parseUNum (natDigs n ++ rest) = some (.num (n : Int), rest) := by
  obtain ⟨hfl, hdg⟩ := numSafe_facts rest hsafe
  by_cases h0 : n = 0
  · subst h0
    rw [show natDigs 0 = ['0'] from rfl]
    rw [List.cons_append, List.nil_append, parseUNum, if_pos rfl, hfl]
    rfl
  · obtain ⟨c, cs, hcs, hdig, hne, _⟩ := natDigs_head n
    have hsplit := takeWhile_dropWhile_split isDig (natDigs n) rest
      (natDigs_all_digits n) hdg
    rw [hcs] at hsplit ⊢
    rw [List.cons_append, parseUNum, if_neg (hne (by omega)), if_pos hdig]
    simp only [← List.cons_append, hsplit.1, hsplit.2, hfl, Bool.false_eq_true, if_false]
    rw [← hcs, natOfDigits_natDigs]

/-- A serialized integer parses back, provided the continuation does not
extend the token. -/
theorem parseNum_intChars (i : Int) (rest : List Char) (hsafe : numSafe rest = true) :
    parseNum (intChars i ++ rest) = some (.num i, rest) := by
  by_cases hneg : i < 0
  · rw [intChars, if_pos hneg, List.cons_append, parseNum, if_pos rfl,
      parseUNum_natDigs i.natAbs rest hsafe]
    show some (Json.num (-(i.natAbs : Int)), rest) = _
    have : -(i.natAbs : Int) = i := by omega
    rw [this]
  · rw [intChars, if_neg hneg]
    obtain ⟨c, cs, hcs, hdig, _, _⟩ := natDigs_head i.toNat
    rw [hcs, List.cons_append, parseNum]
    have hnd : c ≠ '-' := by
      apply char_ne_of_toNat_ne
      rw [isDig, Bool.and_eq_true] at hdig
      have h1 : 48 ≤ c.toNat := by simpa using hdig.1
      have : ('-' : Char).toNat = 45 := rfl
      omega
    rw [if_neg hnd, ← List.cons_append, ← hcs, parseUNum_natDigs i.toNat rest hsafe]
    have : (i.toNat : Int) = i := by omega
    rw [this]

/-! ## Round trip: streams and heads -/

/-- Skipping whitespace stops at a non-whitespace head. -/
theorem skipWs_cons (c : Char) (cs : List Char) (h : isJsWs c = false) :
    skipWs (c :: cs) = c :: cs := by
  rw [skipWs, List.dropWhile_cons, h]; rfl

/-- Skipping whitespace consumes a space. -/
theorem skipWs_space (cs : List Char) : skipWs (' ' :: cs) = skipWs cs := by
  rw [skipWs, List.dropWhile_cons]; rfl

/-- A character with the code point of a minus sign or a digit is not
whitespace, not Python whitespace, and not a closing bracket. -/
theorem digitish_head_props (c : Char)
    (h : c.toNat = 45 ∨ (48 ≤ c.toNat ∧ c.toNat ≤ 57)) :
    isJsWs c = false ∧ isPySpace c = false ∧ c ≠ ']' := by
  have t1 : (' ' : Char).toNat = 32 := rfl
  have t2 : ('\t' : Char).toNat = 9 := rfl
  have t3 : ('\n' : Char).toNat = 10 := rfl
  have t4 : ('\r' : Char).toNat = 13 := rfl
  have t5 : (']' : Char).toNat = 93 := rfl
  have h1 : c ≠ ' ' := char_ne_of_toNat_ne _ _ (by omega)
  have h2 : c ≠ '\t' := char_ne_of_toNat_ne _ _ (by omega)
  have h3 : c ≠ '\n' := char_ne_of_toNat_ne _ _ (by omega)
  have h4 : c ≠ '\r' := char_ne_of_toNat_ne _ _ (by omega)
  have h5 : c ≠ ']' := char_ne_of_toNat_ne _ _ (by omega)
  refine ⟨?_, ?_, h5⟩
  · simp [isJsWs, h1, h2, h3, h4]
  · simp [isPySpace, h1, h2, h3, h4]
    omega

/-- Every serialized value starts with a character that is not
whitespace (JSON or Python) and not a closing bracket. -/
theorem dumpsChars_head (x : Json) :
    ∃ c cs, dumpsChars x = c :: cs ∧ isJsWs c = false ∧ isPySpace c = false ∧
      c ≠ ']' := by
  cases x with
  | null => exact ⟨'n', _, rfl, rfl, rfl, by decide⟩
  | bool b =>
    cases b with
    | true => exact ⟨'t', _, rfl, rfl, rfl, by decide⟩
    | false => exact ⟨'f', _, rfl, rfl, rfl, by decide⟩
  | num n =>
    show ∃ c cs, intChars n = c :: cs ∧ _
    by_cases hneg : n < 0
    · rw [intChars, if_pos hneg]
      obtain ⟨p1, p2, p3⟩ := digitish_head_props '-' (by left; rfl)
      exact ⟨'-', _, rfl, p1, p2, p3⟩
    · rw [intChars, if_neg hneg]
      obtain ⟨c, cs, hcs, hdig, _, _⟩ := natDigs_head n.toNat
      rw [isDig, Bool.and_eq_true, decide_eq_true_eq, decide_eq_true_eq] at hdig
      obtain ⟨p1, p2, p3⟩ := digitish_head_props c (by right; exact hdig)
      exact ⟨c, cs, hcs, p1, p2, p3⟩
  | str s => exact ⟨'"', _, rfl, rfl, rfl, by decide⟩
  | arr xs =>
    cases xs with
    | nil => exact ⟨'[', _, rfl, rfl, rfl, by decide⟩
    | cons y ys => exact ⟨'[', _, rfl, rfl, rfl, by decide⟩
  | obj ms =>
    cases ms with
    | nil => exact ⟨'{', _, rfl, rfl, rfl, by decide⟩
    | cons kv ms2 =>
      obtain ⟨k, v⟩ := kv
      exact ⟨'{', _, rfl, rfl, rfl, by decide⟩

/-- Every value needs at least one unit of parser fuel. -/
theorem jsize_pos (x : Json) : 1 ≤ jsize x := by
  cases x <;> rw [jsize] <;> omega

/-! ## Round trip: object collapse -/

/-- Inserting a fresh key appends. -/
theorem setKey_fresh (acc : List (String × Json)) (k : String) (v : Json)
    (h : ∀ p ∈ acc, p.1 ≠ k) : setKey acc k v = acc ++ [(k, v)] := by
  rw [setKey, if_neg]
  simp only [List.any_eq_true, decide_eq_true_eq, not_exists, not_and]
  exact fun p hp => h p hp

/-- Folding dict insertions over members with fresh, pairwise-distinct
keys appends them all. -/
theorem foldl_setKey_append (ms : List (String × Json)) :
    ∀ acc, wfM ms = true → (∀ p ∈ ms, ∀ q ∈ acc, q.1 ≠ p.1) →
      List.foldl (fun acc kv => setKey acc kv.1 kv.2) acc ms = acc ++ ms := by
  induction ms with
  | nil => intro acc _ _; simp
  | cons kv ms ih =>
    obtain ⟨k, v⟩ := kv
    intro acc hwf hdisj
    rw [wfM, Bool.and_eq_true, Bool.and_eq_true] at hwf
    obtain ⟨hfresh, _, hwfms⟩ := hwf
    have hkfresh : ∀ p ∈ ms, p.1 ≠ k := by
      intro p hp
      simp only [Bool.not_eq_true', List.any_eq_false] at hfresh
      have := hfresh p hp
      simpa using this
    rw [List.foldl_cons, setKey_fresh acc k v (fun p hp => hdisj (k, v) (by simp) p hp)]
    rw [ih (acc ++ [(k, v)]) hwfms]
    · simp
    · intro p hp q hq
      rcases List.mem_append.mp hq with hq | hq
      · exact hdisj p (by simp [hp]) q hq
      · simp only [List.mem_singleton] at hq
        subst hq
        exact fun he => hkfresh p hp he.symm

/-- On members with pairwise-distinct keys, the dict collapse is the
identity. -/
theorem collapsePairs_of_wf (ms : List (String × Json)) (h : wfM ms = true) :
    collapsePairs ms = ms := by
  rw [collapsePairs, foldl_setKey_append ms [] h (by simp)]
  rfl

/-! ## Round trip: main induction -/

/-- The scanner inverts the serializer: with enough fuel, a well-formed
serialized value (followed by a token-safe continuation) parses back to
itself, and likewise for array-element and object-member tails. -/
theorem parse_dumps_main : ∀ fuel : Nat,
    (∀ x rest, jsize x ≤ fuel → wfJ x = true → numSafe rest = true →
      parseVal fuel (dumpsChars x ++ rest) = some (x, rest)) ∧
    (∀ x xs rest, jsizeL (x :: xs) ≤ fuel → wfL (x :: xs) = true →
      parseElems fuel (dumpsChars x ++ (dumpsList xs ++ (']' :: rest))) =
        some (x :: xs, rest)) ∧
    (∀ k v ms rest, jsizeM ((k, v) :: ms) ≤ fuel → wfM ((k, v) :: ms) = true →
      parseMembers fuel ('"' :: (k.toList.flatMap escapeChar ++ ('"' :: ':' :: ' ' ::
        (dumpsChars v ++ (dumpsMembers ms ++ ('}' :: rest)))))) =
        some ((k, v) :: ms, rest)) := by
  intro fuel
  induction fuel with
  | zero =>
    refine ⟨?_, ?_, ?_⟩
    · intro x rest hsz _ _
      have := jsize_pos x
      omega
    · intro x xs rest hsz _
      rw [jsizeL] at hsz
      omega
    · intro k v ms rest hsz _
      rw [jsizeM] at hsz
      omega
  | succ f ih =>
    obtain ⟨ihA, ihB, ihC⟩ := ih
    refine ⟨?_, ?_, ?_⟩
    · intro x rest hsz hwf hsafe
      cases x with
      | null =>
        rw [show dumpsChars .null ++ rest = 'n' :: 'u' :: 'l' :: 'l' :: rest from rfl,
          parseVal]
        rfl
      | bool b =>
        cases b with
        | true =>
          rw [show dumpsChars (.bool true) ++ rest = 't' :: 'r' :: 'u' :: 'e' :: rest
            from rfl, parseVal]
          rfl
        | false =>
          rw [show dumpsChars (.bool false) ++ rest
            = 'f' :: 'a' :: 'l' :: 's' :: 'e' :: rest from rfl, parseVal]
          rfl
      | num n =>
        have hd : ∃ c cs, intChars n = c :: cs ∧
            (c.toNat = 45 ∨ (48 ≤ c.toNat ∧ c.toNat ≤ 57)) := by
          by_cases hneg : n < 0
          · exact ⟨'-', _, by rw [intChars, if_pos hneg], Or.inl rfl⟩
          · obtain ⟨c, cs, hcs, hdig, _, _⟩ := natDigs_head n.toNat
            rw [isDig, Bool.and_eq_true, decide_eq_true_eq, decide_eq_true_eq] at hdig
            exact ⟨c, cs, by rw [intChars, if_neg hneg, hcs], Or.inr hdig⟩
        obtain ⟨c, cs, hcs, hrange⟩ := hd
        have t1 : ('{' : Char).toNat = 123 := rfl
        have t2 : ('[' : Char).toNat = 91 := rfl
        have t3 : ('"' : Char).toNat = 34 := rfl
        have t4 : ('t' : Char).toNat = 116 := rfl
        have t5 : ('f' : Char).toNat = 102 := rfl
        have t6 : ('n' : Char).toNat = 110 := rfl
        have hstream : dumpsChars (.num n) ++ rest = c :: (cs ++ rest) := by
          rw [show dumpsChars (.num n) = intChars n from rfl, hcs]
          rfl
        rw [hstream, parseVal,
          if_neg (char_ne_of_toNat_ne c '{' (by omega)),
          if_neg (char_ne_of_toNat_ne c '[' (by omega)),
          if_neg (char_ne_of_toNat_ne c '"' (by omega)),
          if_neg (char_ne_of_toNat_ne c 't' (by omega)),
          if_neg (char_ne_of_toNat_ne c 'f' (by omega)),
          if_neg (char_ne_of_toNat_ne c 'n' (by omega)),
          show c :: (cs ++ rest) = intChars n ++ rest from by rw [hcs]; rfl,
          parseNum_intChars n rest hsafe]
      | str s =>
        have hstream : dumpsChars (.str s) ++ rest
            = '"' :: (s.toList.flatMap escapeChar ++ ('"' :: rest)) := by
          rw [show dumpsChars (.str s) = '"' :: (s.toList.flatMap escapeChar ++ ['"'])
            from rfl]
          simp
        rw [hstream, parseVal, if_neg (by decide), if_neg (by decide), if_pos rfl,
          parseStrAux_dumpString]
      | arr xs =>
        cases xs with
        | nil =>
          rw [show dumpsChars (.arr []) ++ rest = '[' :: ']' :: rest from rfl, parseVal]
          rfl
        | cons y ys =>
          obtain ⟨c, cs, hcs, hws, _, hne⟩ := dumpsChars_head y
          have hstream : dumpsChars (.arr (y :: ys)) ++ rest
              = '[' :: (c :: (cs ++ (dumpsList ys ++ (']' :: rest)))) := by
            rw [dumpsChars, hcs]
            simp
          rw [hstream, parseVal, if_neg (by decide), if_pos rfl, skipWs_cons c _ hws]
          dsimp only
          rw [if_neg hne,
            show c :: (cs ++ (dumpsList ys ++ (']' :: rest)))
              = dumpsChars y ++ (dumpsList ys ++ (']' :: rest)) from by rw [hcs]; rfl]
          rw [jsize] at hsz
          rw [wfJ] at hwf
          rw [ihB y ys rest (by omega) hwf]
      | obj ms =>
        cases ms with
        | nil =>
          rw [show dumpsChars (.obj []) ++ rest = '{' :: '}' :: rest from rfl, parseVal]
          rfl
        | cons kv ms2 =>
          obtain ⟨k, v⟩ := kv
          have hstream : dumpsChars (.obj ((k, v) :: ms2)) ++ rest
              = '{' :: ('"' :: (k.toList.flatMap escapeChar ++ ('"' :: ':' :: ' ' ::
                (dumpsChars v ++ (dumpsMembers ms2 ++ ('}' :: rest)))))) := by
            rw [dumpsChars,
              show dumpStringChars k
                = '"' :: (k.toList.flatMap escapeChar ++ ['"']) from rfl]
            simp
          rw [jsize] at hsz
          rw [wfJ] at hwf
          rw [hstream, parseVal, if_pos rfl, skipWs_cons '"' _ (by decide)]
          dsimp only
          rw [if_neg (by decide), ihC k v ms2 rest (by omega) hwf]
          dsimp only
          rw [collapsePairs_of_wf _ hwf]
    · intro x xs rest hsz hwf
      rw [jsizeL] at hsz
      rw [wfL, Bool.and_eq_true] at hwf
      obtain ⟨hwx, hwxs⟩ := hwf
      have hsafe : numSafe (dumpsList xs ++ (']' :: rest)) = true := by
        cases xs with
        | nil => rfl
        | cons y ys => rfl
      rw [parseElems, ihA x _ (by omega) hwx hsafe]
      dsimp only
      cases xs with
      | nil =>
        rw [show dumpsList [] ++ (']' :: rest) = ']' :: rest from rfl,
          skipWs_cons ']' _ (by decide)]
        dsimp only
        rw [if_neg (by decide), if_pos rfl]
      | cons y ys =>
        obtain ⟨c, cs, hcs, hws, _, _⟩ := dumpsChars_head y
        have hstream : dumpsList (y :: ys) ++ (']' :: rest)
            = ',' :: (' ' :: (c :: (cs ++ (dumpsList ys ++ (']' :: rest))))) := by
          rw [dumpsList, hcs]
          simp
        rw [hstream, skipWs_cons ',' _ (by decide)]
        dsimp only
        rw [if_pos rfl, skipWs_space, skipWs_cons c _ hws,
          show c :: (cs ++ (dumpsList ys ++ (']' :: rest)))
            = dumpsChars y ++ (dumpsList ys ++ (']' :: rest)) from by rw [hcs]; rfl]
        have := jsize_pos x
        rw [ihB y ys rest (by rw [jsizeL] at hsz ⊢; omega) hwxs]
    · intro k v ms rest hsz hwf
      rw [jsizeM] at hsz
      rw [wfM, Bool.and_eq_true, Bool.and_eq_true] at hwf
      obtain ⟨hfresh, hwv, hwms⟩ := hwf
      have hsafe : numSafe (dumpsMembers ms ++ ('}' :: rest)) = true := by
        cases ms with
        | nil => rfl
        | cons kv2 ms2 =>
          obtain ⟨k2, v2⟩ := kv2
          rfl
      obtain ⟨c, cs, hcs, hws, _, _⟩ := dumpsChars_head v
      rw [parseMembers]
      rw [if_pos rfl, parseStrAux_dumpString]
      dsimp only
      rw [skipWs_cons ':' _ (by decide)]
      dsimp only
      rw [if_pos rfl, skipWs_space,
        show dumpsChars v ++ (dumpsMembers ms ++ ('}' :: rest))
          = c :: (cs ++ (dumpsMembers ms ++ ('}' :: rest))) from by rw [hcs]; rfl,
        skipWs_cons c _ hws,
        show c :: (cs ++ (dumpsMembers ms ++ ('}' :: rest)))
          = dumpsChars v ++ (dumpsMembers ms ++ ('}' :: rest)) from by rw [hcs]; rfl,
        ihA v _ (by omega) hwv hsafe]
      dsimp only
      cases ms with
      | nil =>
        rw [show dumpsMembers [] ++ ('}' :: rest) = '}' :: rest from rfl,
          skipWs_cons '}' _ (by decide)]
        dsimp only
        rw [if_neg (by decide), if_pos rfl]
      | cons kv2 ms2 =>
        obtain ⟨k2, v2⟩ := kv2
        have hstream : dumpsMembers ((k2, v2) :: ms2) ++ ('}' :: rest)
            = ',' :: (' ' :: ('"' :: (k2.toList.flatMap escapeChar ++ ('"' :: ':' :: ' ' ::
              (dumpsChars v2 ++ (dumpsMembers ms2 ++ ('}' :: rest))))))) := by
          rw [dumpsMembers,
            show dumpStringChars k2
              = '"' :: (k2.toList.flatMap escapeChar ++ ['"']) from rfl]
          simp
        rw [hstream, skipWs_cons ',' _ (by decide)]
        dsimp only
        rw [if_pos rfl, skipWs_space, skipWs_cons '"' _ (by decide)]
        have := jsize_pos v
        rw [ihC k2 v2 ms2 rest (by rw [jsizeM] at hsz ⊢; omega) hwms]

/-! ## Round trip: fuel bound and top level -/

mutual
theorem jsize_le (x : Json) : jsize x ≤ (dumpsChars x).length := by
  cases x with
  | null => decide
  | bool b => cases b <;> decide
  | num n =>
    rw [jsize, show dumpsChars (.num n) = intChars n from rfl]
    by_cases hneg : n < 0
    · rw [intChars, if_pos hneg]
      simp
    · rw [intChars, if_neg hneg]
      obtain ⟨c, cs, hcs, _, _, _⟩ := natDigs_head n.toNat
      rw [hcs]
      simp
  | str s =>
    rw [jsize, show dumpsChars (.str s)
      = '"' :: (s.toList.flatMap escapeChar ++ ['"']) from rfl]
    simp
  | arr xs =>
    cases xs with
    | nil => decide
    | cons y ys =>
      have h1 := jsize_le y
      have h2 := jsizeL_le ys
      rw [jsize, jsizeL, dumpsChars]
      simp only [List.length_cons, List.length_append]
      omega
  | obj ms =>
    cases ms with
    | nil => decide
    | cons kv ms2 =>
      obtain ⟨k, v⟩ := kv
      have h1 := jsize_le v
      have h2 := jsizeM_le ms2
      rw [jsize, jsizeM, dumpsChars]
      simp only [List.length_cons, List.length_append]
      omega

theorem jsizeL_le (xs : List Json) : jsizeL xs ≤ (dumpsList xs).length := by
  cases xs with
  | nil => decide
  | cons y ys =>
    have h1 := jsize_le y
    have h2 := jsizeL_le ys
    rw [jsizeL, dumpsList]
    simp only [List.length_cons, List.length_append]
    omega

theorem jsizeM_le (ms : List (String × Json)) : jsizeM ms ≤ (dumpsMembers ms).length := by
  cases ms with
  | nil => decide
  | cons kv ms2 =>
    obtain ⟨k, v⟩ := kv
    have h1 := jsize_le v
    have h2 := jsizeM_le ms2
    rw [jsizeM, dumpsMembers]
    simp only [List.length_cons, List.length_append]
    omega
end

/-- Model of `json.loads` inverts the serializer on well-formed
values. -/
theorem jsonLoads_dumps (x : Json) (hwf : wfJ x = true) :
    jsonLoads (dumps x) = some x := by
  obtain ⟨c, cs, hcs, hws, _, _⟩ := dumpsChars_head x
  have hlist : (dumps x).toList = dumpsChars x := rfl
  have hlen : (dumps x).length = (dumpsChars x).length := rfl
  have hmain := (parse_dumps_main ((dumps x).length + 1)).1 x []
    (by rw [hlen]; have := jsize_le x; omega) hwf (by rfl)
  rw [List.append_nil] at hmain
  rw [jsonLoads, hlist, hcs, skipWs_cons c _ hws, ← hcs, hmain]
  rfl

/-- Dropping a prefix cannot erase an element that fails the
predicate. -/
theorem dropWhile_ne_nil (p : Char → Bool) (l : List Char) (c : Char)
    (hc : c ∈ l) (hp : p c = false) : l.dropWhile p ≠ [] := by
  induction l with
  | nil => cases hc
  | cons a l ih =>
    rw [List.dropWhile_cons]
    rcases List.mem_cons.mp hc with rfl | hc2
    · rw [hp]
      simp
    · by_cases ha : p a = true
      · rw [ha]
        simpa using ih hc2
      · simp only [Bool.not_eq_true] at ha
        rw [ha]
        simp

/-- A serialized value never strips to the empty string (its head is not
whitespace). -/
theorem pyStrip_dumps_ne (x : Json) : pyStrip (dumps x) ≠ "" := by
  obtain ⟨c, cs, hcs, _, hpy, _⟩ := dumpsChars_head x
  rw [pyStrip]
  intro hcon
  have hdata : ((((dumps x).toList.dropWhile isPySpace).reverse.dropWhile
      isPySpace).reverse) = [] := congrArg String.data hcon
  have h1 : (dumps x).toList.dropWhile isPySpace = c :: cs := by
    rw [show (dumps x).toList = dumpsChars x from rfl, hcs, List.dropWhile_cons, hpy]
    rfl
  rw [h1, List.reverse_eq_nil_iff] at hdata
  exact dropWhile_ne_nil isPySpace (c :: cs).reverse c (by simp) hpy hdata

/-- C6: `parse_json_output` (the normalizer over `json.loads`) satisfies
the round-trip law `parse_structured_output(serialize(x)) = x` for every
JSON-serializable mapping or sequence `x` (well-formed: distinct object
keys, as Python dicts guarantee; integral numbers, floats being outside
the model), and every empty or whitespace-only input yields exactly the
container with the "error" key mapped to the fallback message, which
defaults to "No data returned". -/
theorem C6_parse_serialize_roundtrip (x : Json)
    (hx : (∃ ms, x = .obj ms) ∨ (∃ xs, x = .arr xs)) (hwf : wfJ x = true) :
    parse_json_output (dumps x) = x ∧
    (∀ out fb, pyStrip out = "" → parse_json_output out fb = .obj [("error", .str fb)]) ∧
    (∀ out, pyStrip out = "" →
      parse_json_output out = .obj [("error", .str "No data returned")]) := by
  refine ⟨?_, ?_, ?_⟩
  · rw [parse_json_output, if_neg (pyStrip_dumps_ne x), jsonLoads_dumps x hwf]
  · intro out fb h
    rw [parse_json_output, if_pos h]
  · intro out h
    rw [parse_json_output, if_pos h]

/-- Witness for C6 at a concrete mapping and a whitespace-only input. -/
theorem C6_witness :
    dumps (.obj [("clusters", .arr [.num 1, .str "a"])]) =
      "\x7b\"clusters\": [1, \"a\"]\x7d" ∧
    parse_json_output "\x7b\"clusters\": [1, \"a\"]\x7d" =
      .obj [("clusters", .arr [.num 1, .str "a"])] ∧
    parse_json_output "  \t " = .obj [("error", .str "No data returned")] := by
  refine ⟨rfl, ?_, ?_⟩
  · have h := (C6_parse_serialize_roundtrip (.obj [("clusters", .arr [.num 1, .str "a"])])
      (Or.inl ⟨_, rfl⟩) (by rfl)).1
    exact (show parse_json_output "\x7b\"clusters\": [1, \"a\"]\x7d"
      = parse_json_output (dumps (.obj [("clusters", .arr [.num 1, .str "a"])])) from rfl).trans h
  · exact (C6_parse_serialize_roundtrip (.obj [("clusters", .arr [.num 1, .str "a"])])
      (Or.inl ⟨_, rfl⟩) (by rfl)).2.2 "  \t " rfl
